import Mathlib

/-!
# Swift driver: jobs, command outputs and batching

A shallow embedding of `lib/Driver/Job.cpp`, `include/swift/Driver/Job.h` and
`lib/Driver/ToolChain.cpp`.

Conventions of the embedding:

* a `StringRef`, a `std::string` and a `const char *` are all a `List Char`;
* an `llvm::raw_ostream` is the list of characters written to it so far, and
  every printing function takes the stream and returns the stream after the
  write;
* `assert` is modelled as compiled in (a build without `NDEBUG`): a failing
  assertion ends the operation with `Except.error`, carrying which assertion
  failed;
* the pointers that the code keeps in lists and compares by address, the
  `const Job *` of the upstream jobs of a job and the `const Action *` of the
  inputs of an action, are a `Ptr`: an address together with the object found
  there. Two such pointers are the same pointer when their addresses are equal,
  whatever the fields of the objects.
-/

namespace swift

/-! ## Strings and streams -/

/-- A string reference: the characters of the string, in order. -/
abbrev StringRef := List Char

/-- An output stream, as the characters written to it so far. -/
abbrev raw_ostream := List Char

/-- The write `os << c` of a single character. -/
def raw_ostream.putChar (os : raw_ostream) (c : Char) : raw_ostream := os ++ [c]

/-- The write `os << Str` of a string. -/
def raw_ostream.putStr (os : raw_ostream) (Str : StringRef) : raw_ostream := os ++ Str

/-- The library call `StringRef::find_first_of(Chars)`: the index of the first character of
`Str` that occurs in `Chars`, or `none` for `StringRef::npos`. -/
def StringRef.find_first_of (Str Chars : StringRef) : Option Nat :=
  match Str with
  | [] => none
  | c :: rest =>
    if c ∈ Chars then some 0
    else (StringRef.find_first_of rest Chars).map (· + 1)

/-- Modelled from the spec: `interleave` of `swift/Basic/STLExtras.h`, which is
not among the sources. It runs `each_fn` on every element in order, and
`between_fn` between two consecutive elements (never before the first or after
the last). -/
def interleave {α : Type} (xs : List α) (each_fn : raw_ostream → α → raw_ostream)
    (between_fn : raw_ostream → raw_ostream) (os : raw_ostream) : raw_ostream :=
  match xs with
  | [] => os
  | x :: rest => rest.foldl (fun s y => each_fn (between_fn s) y) (each_fn os x)

namespace driver

/-! ## `escapeAndPrintString` (Job.cpp) -/

/-- The body of the `for (const char c : Str)` loop of `escapeAndPrintString`:
the `switch` writes a backslash for `"`, `\` and `$` and falls through to
the default case, which writes the character. -/
def escapeAndPrintChar (os : raw_ostream) (c : Char) : raw_ostream :=
  if c = '"' ∨ c = '\\' ∨ c = '$' then (os.putChar '\\').putChar c
  else os.putChar c

/-- The static function `escapeAndPrintString(os, Str)` of Job.cpp. -/
def escapeAndPrintString (os : raw_ostream) (Str : StringRef) : raw_ostream :=
  if Str.isEmpty then
    -- Special-case the empty string.
    os.putStr ['"', '"']
  else
    let NeedsEscape := (StringRef.find_first_of Str [' ', '"', '\\', '$']).isSome
    if !NeedsEscape then
      os.putStr Str
    else
      ((Str.foldl escapeAndPrintChar (os.putChar '"'))).putChar '"'

/-- The escaping rule in the words of the specification: the text printed for
one argument. -/
def specEscape (s : StringRef) : StringRef :=
  if s = [] then ['"', '"']
  else if ∀ c ∈ s, c ≠ ' ' ∧ c ≠ '"' ∧ c ≠ '\\' ∧ c ≠ '$' then s
  else
    ['"'] ++ s.flatMap (fun c => if c = '"' ∨ c = '\\' ∨ c = '$' then ['\\', c] else [c])
      ++ ['"']


/-! ## File types and the output file map -/

/-- Modelled from the spec: `types::ID` of `swift/Driver/Types.h`, which is not
among the sources. It is the tag of a file type ("output kind"); the sources
name only `TY_Swift`, the type of a Swift source file, and every other type is
told apart by a number. -/
inductive types.ID where
  | TY_Swift
  | TY_Other (n : Nat)
  deriving DecidableEq, Repr

/-- Modelled from the spec: `TypeToPathMap` of `swift/Driver/OutputFileMap.h`,
which is not among the sources: the per-kind output map of one input file, a
finite map from output kind to output path, kept as an association list with
at most one use of each key by `TypeToPathMap.insert`. -/
abbrev TypeToPathMap := List (types.ID × StringRef)

/-- Modelled from the spec: `M.find(Type)` on a `TypeToPathMap`: the path
stored for the kind, `none` standing for `M.end()`. -/
def TypeToPathMap.find (M : TypeToPathMap) (Ty : types.ID) : Option StringRef :=
  match M with
  | [] => none
  | (k, v) :: rest => if k = Ty then some v else TypeToPathMap.find rest Ty

/-- Modelled from the spec: `M.insert(std::make_pair(type, OutputFile))` on a
`TypeToPathMap`: adds the pair when the key is absent and leaves the map alone
when the key is present. -/
def TypeToPathMap.insert (M : TypeToPathMap) (Ty : types.ID) (OutputFile : StringRef) :
    TypeToPathMap :=
  match TypeToPathMap.find M Ty with
  | none => M ++ [(Ty, OutputFile)]
  | some _ => M

/-- Modelled from the spec: `OutputFileMap` of `swift/Driver/OutputFileMap.h`,
which is not among the sources: the table shared by the command outputs of a
compilation, from input file to the per-kind output map of that input. -/
structure OutputFileMap where
  InputToOutputsMap : List (StringRef × TypeToPathMap)
  deriving DecidableEq, Repr

/-- Modelled from the spec: `OutputFileMap::getOutputMapForInput`, the lookup
returning the per-kind output map for an input file, or absent (`none` for the
null pointer). -/
def OutputFileMap.getOutputMapForInput (D : OutputFileMap) (Input : StringRef) :
    Option TypeToPathMap :=
  let rec go : List (StringRef × TypeToPathMap) → Option TypeToPathMap
    | [] => none
    | (k, M) :: rest => if k = Input then some M else go rest
  go D.InputToOutputsMap

/-- Writing through the reference that `getOrCreateOutputMapForInput` returned:
the per-kind map of `Input` becomes `M`. -/
def OutputFileMap.setOutputMapForInput (D : OutputFileMap) (Input : StringRef)
    (M : TypeToPathMap) : OutputFileMap :=
  let rec go : List (StringRef × TypeToPathMap) → List (StringRef × TypeToPathMap)
    | [] => [(Input, M)]
    | (k, M') :: rest => if k = Input then (k, M) :: rest else (k, M') :: go rest
  ⟨go D.InputToOutputsMap⟩

/-- Modelled from the spec: `OutputFileMap::getOrCreateOutputMapForInput`, the
get-or-create variant of the lookup: an input without a per-kind map gets an
empty one. The result is the table after the call and the map referred to. -/
def OutputFileMap.getOrCreateOutputMapForInput (D : OutputFileMap) (Input : StringRef) :
    OutputFileMap × TypeToPathMap :=
  match D.getOutputMapForInput Input with
  | some M => (D, M)
  | none => (D.setOutputMapForInput Input [], [])

/-- The table entry for an (input, kind) pair, if there is one: the reading
of "the shared output table holds `o` for `(i, k)`" used in the statements. -/
def OutputFileMap.entry (D : OutputFileMap) (Input : StringRef) (Ty : types.ID) :
    Option StringRef :=
  match D.getOutputMapForInput Input with
  | none => none
  | some M => TypeToPathMap.find M Ty

/-! ## `CommandOutput` (Job.h, Job.cpp) -/

/-- The assertions of the sources, as the ways an operation can fail. -/
inductive InvariantViolation where
  /-- The assertion `assert(Out->second == OutputFile)` in `checkConflictAndAdd`. -/
  | OutSecondEqOutputFile
  /-- The assertion `assert(InputFiles.size() == 1)` in the single-input accessors. -/
  | InputFilesSizeEqOne
  /-- The assertion `assert(jobsAreBatchCombinable(A, B))` in `constructBatchJob`. -/
  | JobsAreBatchCombinable
  deriving DecidableEq, Repr

/-- The class `CommandOutput`. The reference member `DerivedOutputMap` is the
current value of the shared table. -/
structure CommandOutput where
  PrimaryOutputType : types.ID
  InputFiles : List StringRef
  DerivedOutputMap : OutputFileMap
  deriving DecidableEq, Repr

/-- The method `CommandOutput::getOutputForInputAndType`. -/
def CommandOutput.getOutputForInputAndType (c : CommandOutput) (Input : StringRef)
    (Ty : types.ID) : StringRef :=
  match c.DerivedOutputMap.getOutputMapForInput Input with
  | none => []
  | some M =>
    match TypeToPathMap.find M Ty with
    | none => []
    | some Out => Out

/-- The method `CommandOutput::checkConflictAndAdd`. The `DEBUG` block only prints to the
error stream and is left out. -/
def CommandOutput.checkConflictAndAdd (c : CommandOutput) (OutputFile InputFile : StringRef)
    (type : types.ID) : Except InvariantViolation CommandOutput :=
  let (D, M) := c.DerivedOutputMap.getOrCreateOutputMapForInput InputFile
  match TypeToPathMap.find M type with
  | none =>
    .ok { c with DerivedOutputMap :=
            D.setOutputMapForInput InputFile (TypeToPathMap.insert M type OutputFile) }
  | some Out =>
    if Out = OutputFile then .ok { c with DerivedOutputMap := D }
    else .error .OutSecondEqOutputFile

/-- The method `CommandOutput::addPrimaryOutput`. -/
def CommandOutput.addPrimaryOutput (c : CommandOutput) (OutputFile InputFile : StringRef) :
    Except InvariantViolation CommandOutput :=
  let c1 := { c with InputFiles := c.InputFiles ++ [InputFile] }
  c1.checkConflictAndAdd OutputFile InputFile c1.PrimaryOutputType

/-- The method `CommandOutput::getPrimaryOutputFilename`. -/
def CommandOutput.getPrimaryOutputFilename (c : CommandOutput) :
    Except InvariantViolation StringRef :=
  if h : c.InputFiles.length = 1 then
    .ok (c.getOutputForInputAndType c.InputFiles[0] c.PrimaryOutputType)
  else .error .InputFilesSizeEqOne

/-- The method `CommandOutput::getPrimaryOutputFilenames`. -/
def CommandOutput.getPrimaryOutputFilenames (c : CommandOutput) : List StringRef :=
  c.InputFiles.foldl
    (fun V I =>
      let Out := c.getOutputForInputAndType I c.PrimaryOutputType
      if !Out.isEmpty then V ++ [Out] else V)
    []

/-- The method `CommandOutput::setAdditionalOutputForType`. -/
def CommandOutput.setAdditionalOutputForType (c : CommandOutput) (type : types.ID)
    (OutputFilename : StringRef) : Except InvariantViolation CommandOutput :=
  if h : c.InputFiles.length = 1 then
    c.checkConflictAndAdd OutputFilename c.InputFiles[0] type
  else .error .InputFilesSizeEqOne

/-- The method `CommandOutput::getAdditionalOutputForType`. -/
def CommandOutput.getAdditionalOutputForType (c : CommandOutput) (type : types.ID) :
    Except InvariantViolation StringRef :=
  if h : c.InputFiles.length = 1 then
    .ok (c.getOutputForInputAndType c.InputFiles[0] type)
  else .error .InputFilesSizeEqOne

/-! ## Actions and jobs -/

/-- The kinds of job action, as listed by the `CASE` lines of
`ToolChain::constructJob`. -/
inductive JobActionKind where
  | CompileJob | InterpretJob | BackendJob | MergeModuleJob | ModuleWrapJob | LinkJob
  | GenerateDSYMJob | VerifyDebugInfoJob | GeneratePCHJob | AutolinkExtractJob | REPLJob
  deriving DecidableEq, Repr

/-- A pointer to an object that lives elsewhere (`const Job *`,
`const Action *`): the address, by which the code compares pointers, and the
object at that address. Two objects with the same fields at two addresses are
two pointers. -/
structure Ptr (α : Type) where
  addr : Nat
  obj : α
  deriving DecidableEq

/-- Modelled from the spec: `Action` of `swift/Driver/Action.h`, which is not
among the sources: a node with a kind tag and an ordered list of input actions
(pointers to actions), where a leaf input action carries a source file path.
Every action has the file type it produces (`getType`). -/
inductive Action where
  | InputAction (Input : StringRef) (Ty : types.ID)
  | JobAction (Kind : JobActionKind) (Inputs : List (Ptr Action)) (Ty : types.ID)

/-- Modelled from the spec: `JobAction` of `swift/Driver/Action.h`, which is not
among the sources: an action that is not a leaf input, the only kind of action
a job can come from. -/
structure JobAction where
  Kind : JobActionKind
  Inputs : List (Ptr Action)
  Ty : types.ID

/-- The enumeration `Job::Condition`. -/
inductive Job.Condition where
  | Always | RunWithoutCascading | CheckDependencies | NewlyAdded
  deriving DecidableEq, Repr

/-- Modelled from the spec: `FilelistInfo` of `swift/Driver/Util.h`, which is not
among the sources: the descriptor of a generated list file, with its path. -/
structure FilelistInfo where
  path : StringRef
  deriving DecidableEq, Repr

/-- The class `Job`. The member `SourceAndCondition` is the two fields `Source`
and `Cond`; the member `Inputs` is a list of pointers to the upstream jobs. -/
structure Job where
  Source : JobAction
  Cond : Job.Condition
  Inputs : List (Ptr Job)
  Output : CommandOutput
  Executable : StringRef
  Arguments : List StringRef
  ExtraEnvironment : List (StringRef × StringRef)
  FilelistFileInfos : List FilelistInfo

/-- The method `Job::printArguments`. -/
def Job.printArguments (os : raw_ostream) (Args : List StringRef) : raw_ostream :=
  interleave Args (fun os Arg => escapeAndPrintString os Arg) (fun os => os.putChar ' ') os

/-- The method `Job::printCommandLine`. The caller passes the terminator (the default
argument of the declaration is a newline). -/
def Job.printCommandLine (J : Job) (os : raw_ostream) (Terminator : StringRef) : raw_ostream :=
  let os := escapeAndPrintString os J.Executable
  let os := os.putChar ' '
  let os := Job.printArguments os J.Arguments
  os.putStr Terminator

/-- The method `Job::printCommandLineAndEnvironment`. The parameter `Terminator` is not
used by the body, which ends with `Stream << "\n"`. -/
def Job.printCommandLineAndEnvironment (J : Job) (Stream : raw_ostream)
    (_Terminator : StringRef) : raw_ostream :=
  let Stream := J.printCommandLine Stream []
  let Stream :=
    if !J.ExtraEnvironment.isEmpty then
      J.ExtraEnvironment.foldl
        (fun s pair => (((s.putStr [' ']).putStr pair.1).putStr ['=']).putStr pair.2)
        (Stream.putStr [' ', ' ', '#'])
    else Stream
  Stream.putStr ['\n']

/-! ## Batchability (ToolChain.cpp) -/

/-- The loop of `findSingleSwiftInput` over the inputs that are left, with the
current value of the local `IA`. -/
def findSingleSwiftInput.loop (Inputs : List (Ptr Action)) (IA : Option (Ptr Action)) :
    Option (Ptr Action) :=
  match Inputs with
  | [] => IA
  | I :: rest =>
    match I.obj with
    | .InputAction _ Ty =>
      if Ty = types.ID.TY_Swift then
        match IA with
        | none => findSingleSwiftInput.loop rest (some I)
        | some _ =>
          -- Already found one, two is too many.
          none
      else findSingleSwiftInput.loop rest IA
    | .JobAction _ _ _ => findSingleSwiftInput.loop rest IA

/-- The static function `findSingleSwiftInput` of ToolChain.cpp. -/
def findSingleSwiftInput (CJA : JobAction) : Option (Ptr Action) :=
  findSingleSwiftInput.loop CJA.Inputs none

/-- The method `ToolChain::jobIsBatchable`. The `dyn_cast` to `CompileJobAction` succeeds
exactly for a source of kind `CompileJob`. -/
def ToolChain.jobIsBatchable (A : Job) : Bool :=
  if A.Source.Kind ≠ JobActionKind.CompileJob then false
  else (findSingleSwiftInput A.Source).isSome

/-- The inputs counted by the batchability rule: a leaf input action of
Swift-source type. -/
def Action.isSwiftInput : Action → Bool
  | .InputAction _ Ty => decide (Ty = types.ID.TY_Swift)
  | .JobAction _ _ _ => false

/-! ## Equality of actions and jobs

Equality of the values of the embedding, used to evaluate it on examples. It
is not the comparison of pointers, which goes by `Ptr.addr`. -/

mutual
/-- Deciding whether two actions are the same. -/
def Action.decEq : (a b : Action) → Decidable (a = b)
  | .InputAction i t, .InputAction i' t' =>
    if h : i = i' ∧ t = t' then isTrue (by rw [h.1, h.2])
    else isFalse (fun e => h (by cases e; exact ⟨rfl, rfl⟩))
  | .JobAction k ins t, .JobAction k' ins' t' =>
    match Action.decEqList ins ins' with
    | isTrue hl =>
      if h : k = k' ∧ t = t' then isTrue (by rw [hl, h.1, h.2])
      else isFalse (fun e => h (by cases e; exact ⟨rfl, rfl⟩))
    | isFalse hl => isFalse (fun e => hl (by cases e; rfl))
  | .InputAction _ _, .JobAction _ _ _ => isFalse (fun e => by cases e)
  | .JobAction _ _ _, .InputAction _ _ => isFalse (fun e => by cases e)
/-- Deciding whether two lists of pointers to actions are the same. -/
def Action.decEqList : (a b : List (Ptr Action)) → Decidable (a = b)
  | [], [] => isTrue rfl
  | ⟨n, a⟩ :: as, ⟨m, b⟩ :: bs =>
    match Action.decEq a b, Action.decEqList as bs with
    | isTrue h1, isTrue h2 =>
      if h : n = m then isTrue (by rw [h, h1, h2])
      else isFalse (fun e => h (by cases e; rfl))
    | isFalse h1, _ => isFalse (fun e => h1 (by cases e; rfl))
    | _, isFalse h2 => isFalse (fun e => h2 (by cases e; rfl))
  | [], _ :: _ => isFalse (fun e => by cases e)
  | _ :: _, [] => isFalse (fun e => by cases e)
end

instance : DecidableEq Action := Action.decEq

instance : DecidableEq JobAction := fun a b =>
  if h : a.Kind = b.Kind ∧ a.Inputs = b.Inputs ∧ a.Ty = b.Ty then
    isTrue (by cases a; cases b; simp only [JobAction.mk.injEq]; exact h)
  else isFalse (fun e => h (by subst e; exact ⟨rfl, rfl, rfl⟩))

mutual
/-- Deciding whether two jobs are the same. -/
def Job.decEq : (a b : Job) → Decidable (a = b)
  | ⟨s, c, ins, o, e, args, env, fl⟩, ⟨s', c', ins', o', e', args', env', fl'⟩ =>
    match Job.decEqList ins ins' with
    | isTrue hl =>
      if h : s = s' ∧ c = c' ∧ o = o' ∧ e = e' ∧ args = args' ∧ env = env' ∧ fl = fl' then
        isTrue (by
          obtain ⟨h1, h2, h3, h4, h5, h6, h7⟩ := h
          rw [hl, h1, h2, h3, h4, h5, h6, h7])
      else isFalse (fun e => h (by cases e; exact ⟨rfl, rfl, rfl, rfl, rfl, rfl, rfl⟩))
    | isFalse hl => isFalse (fun e => hl (by cases e; rfl))
/-- Deciding whether two lists of pointers to jobs are the same. -/
def Job.decEqList : (a b : List (Ptr Job)) → Decidable (a = b)
  | [], [] => isTrue rfl
  | ⟨n, a⟩ :: as, ⟨m, b⟩ :: bs =>
    match Job.decEq a b, Job.decEqList as bs with
    | isTrue h1, isTrue h2 =>
      if h : n = m then isTrue (by rw [h, h1, h2])
      else isFalse (fun e => h (by cases e; rfl))
    | isFalse h1, _ => isFalse (fun e => h1 (by cases e; rfl))
    | _, isFalse h2 => isFalse (fun e => h2 (by cases e; rfl))
  | [], _ :: _ => isFalse (fun e => by cases e)
  | _ :: _, [] => isFalse (fun e => by cases e)
end

instance : DecidableEq Job := Job.decEq

/-! ## Batch combinability (ToolChain.cpp) -/

/-- The loop `for (size_t i = 0; i < AEnv.size(); ++i)` of
`jobsAreBatchCombinable`, which runs when the two lists have the same size and
so walks them in step: it returns `false` at the first position whose keys
(`strcmp` of `first`) or values (`strcmp` of `second`) differ. -/
def ToolChain.jobsAreBatchCombinable.envLoop :
    List (StringRef × StringRef) → List (StringRef × StringRef) → Bool
  | a :: AEnv, b :: BEnv =>
    if a.1 ≠ b.1 then false
    else if a.2 ≠ b.2 then false
    else ToolChain.jobsAreBatchCombinable.envLoop AEnv BEnv
  | _, _ => true

/-- The method `ToolChain::jobsAreBatchCombinable`. -/
def ToolChain.jobsAreBatchCombinable (A B : Job) : Bool :=
  -- Check that we have two CompileJobActions.
  if A.Source.Kind ≠ JobActionKind.CompileJob ∨ B.Source.Kind ≠ JobActionKind.CompileJob then
    false
  else
    -- Check that we have two "single Swift input" jobs.
    let InActA := findSingleSwiftInput A.Source
    let InActB := findSingleSwiftInput B.Source
    if InActA.isNone ∨ InActB.isNone then false
    -- Check Jobs have same executable.
    else if A.Executable ≠ B.Executable then false
    -- Check Jobs are making the same kind of output.
    else if A.Output.PrimaryOutputType ≠ B.Output.PrimaryOutputType then false
    else
      -- Check Jobs have same environment.
      let AEnv := A.ExtraEnvironment
      let BEnv := B.ExtraEnvironment
      if AEnv.length ≠ BEnv.length then false
      else ToolChain.jobsAreBatchCombinable.envLoop AEnv BEnv

/-- The inputs of a compile action other than its Swift source: the
"non-primary" inputs. -/
def JobAction.nonPrimaryInputs (CJA : JobAction) : List (Ptr Action) :=
  CJA.Inputs.filter (fun a => !a.obj.isSwiftInput)

/-! ## Batch jobs (Job.h, Job.cpp, ToolChain.cpp) -/

/-- The constructor `Job::Job`: the condition of a new job is `Always`. -/
def Job.new (Source : JobAction) (Inputs : List (Ptr Job)) (Output : CommandOutput)
    (Executable : StringRef) (Arguments : List StringRef)
    (ExtraEnvironment : List (StringRef × StringRef)) (Infos : List FilelistInfo) : Job :=
  { Source := Source, Cond := Job.Condition.Always, Inputs := Inputs, Output := Output,
    Executable := Executable, Arguments := Arguments, ExtraEnvironment := ExtraEnvironment,
    FilelistFileInfos := Infos }

/-- The class `BatchJob`: a job with the list of the jobs it combines. -/
structure BatchJob extends Job where
  CombinedJobs : List Job

/-- The constructor `BatchJob::BatchJob`. -/
def BatchJob.new (Source : JobAction) (Inputs : List (Ptr Job)) (Output : CommandOutput)
    (Executable : StringRef) (Arguments : List StringRef)
    (ExtraEnvironment : List (StringRef × StringRef)) (Infos : List FilelistInfo)
    (Combined : List Job) : BatchJob :=
  { toJob := Job.new Source Inputs Output Executable Arguments ExtraEnvironment Infos,
    CombinedJobs := Combined }

/-- The accessor `BatchJob::getCombinedJobs`. -/
def BatchJob.getCombinedJobs (B : BatchJob) : List Job := B.CombinedJobs

/-- Modelled from the spec: `CommandOutput::addOutputs`, which is declared and
defined in none of the sources: it merges the full input set of another
command output into this one. -/
def CommandOutput.addOutputs (c other : CommandOutput) : CommandOutput :=
  { c with InputFiles := c.InputFiles ++ other.InputFiles }

/-- Modelled from the spec: `OutputInfo::Mode` of `swift/Driver/Driver.h`, which
is not among the sources; the sources name only `BatchModeCompile`. -/
inductive OutputInfo.Mode where
  | BatchModeCompile
  | OtherMode (n : Nat)
  deriving DecidableEq, Repr

/-- Modelled from the spec: `OutputInfo` of `swift/Driver/Driver.h`, which is not
among the sources: the global output policy, of which the sources use the
compiler mode. -/
structure OutputInfo where
  CompilerMode : OutputInfo.Mode
  deriving DecidableEq, Repr

/-- Modelled from the spec: `Compilation` of `swift/Driver/Compilation.h`, which
is not among the sources: the compilation session, with its output policy
(`getOutputInfo`), the output table shared by its command outputs, and the
actions it owns, in the order `createAction` made them. -/
structure Compilation where
  TheOutputInfo : OutputInfo
  DerivedOutputMap : OutputFileMap
  Actions : List JobAction
  deriving DecidableEq

/-- Modelled from the spec: `Compilation::createAction` for an action whose
inputs have been added: the compilation owns one more action. -/
def Compilation.createAction (C : Compilation) (A : JobAction) : Compilation :=
  { C with Actions := C.Actions ++ [A] }

/-- The structure `ToolChain::JobContext`, as its constructor in ToolChain.cpp
fills it (without `Args`, the parsed command line of the compilation). -/
structure JobContext where
  C : Compilation
  Inputs : List (Ptr Job)
  InputActions : List (Ptr Action)
  Output : CommandOutput
  OI : OutputInfo

/-- Modelled from the spec: `InvocationInfo` of `swift/Driver/ToolChain.h`, which
is not among the sources: what an invocation builder returns, an executable
name, an argument list, extra environment and filelist descriptors. -/
structure InvocationInfo where
  ExecutableName : StringRef
  Arguments : List StringRef
  ExtraEnvironment : List (StringRef × StringRef)
  FilelistInfos : List FilelistInfo

/-- The call `insert` of an `llvm::SmallSetVector` of pointers: the pointer
goes to the end unless the same pointer, one with the same address, is already
there. -/
def SetVector.insert {α : Type} (V : List (Ptr α)) (x : Ptr α) : List (Ptr α) :=
  if x.addr ∈ V.map Ptr.addr then V else V ++ [x]

/-- The loop `for (auto const *J : jobs)` of `constructBatchJob` that fills
`inputJobs` and `inputActions`; `none` stands for the `return nullptr` taken at
a job whose source is not a compile action. -/
def ToolChain.constructBatchJob.collect :
    List Job → List (Ptr Job) × List (Ptr Action) →
      Option (List (Ptr Job) × List (Ptr Action))
  | [], acc => some acc
  | J :: rest, (inputJobs, inputActions) =>
    let inputJobs := J.Inputs.foldl SetVector.insert inputJobs
    if J.Source.Kind ≠ JobActionKind.CompileJob then none
    else
      ToolChain.constructBatchJob.collect rest
        (inputJobs, J.Source.Inputs.foldl SetVector.insert inputActions)

/-- What a call of `constructBatchJob` leaves: the job returned (`none` for
`nullptr`), the compilation after the call, and the calls made to the
invocation builder, in order. -/
structure ConstructBatchJobResult where
  Result : Option BatchJob
  C : Compilation
  Invocations : List (JobAction × JobContext)

/-- The method `ToolChain::constructBatchJob`. The invocation builder
`constructInvocation` is a virtual method of the tool chain and is a parameter
here. The constructor call `CommandOutput(outputType)` of the source names no
table; the new command output refers to the table shared by the compilation. -/
def ToolChain.constructBatchJob
    (constructInvocation : JobAction → JobContext → InvocationInfo)
    (jobs : List Job) (C : Compilation) : Except InvariantViolation ConstructBatchJobResult :=
  -- a precondition of this is that the jobs are all pairwise combinable.
  if !(jobs.all fun A => jobs.all fun B => ToolChain.jobsAreBatchCombinable A B) then
    .error InvariantViolation.JobsAreBatchCombinable
  else
    match jobs with
    | [] => .ok { Result := none, C := C, Invocations := [] }
    | J0 :: _ =>
      let OI : OutputInfo :=
        { C.TheOutputInfo with CompilerMode := OutputInfo.Mode.BatchModeCompile }
      let executablePath := J0.Executable
      let outputType := J0.Output.PrimaryOutputType
      let output : CommandOutput :=
        jobs.foldl (fun o J => o.addOutputs J.Output)
          { PrimaryOutputType := outputType, InputFiles := [],
            DerivedOutputMap := C.DerivedOutputMap }
      match ToolChain.constructBatchJob.collect jobs ([], []) with
      | none => .ok { Result := none, C := C, Invocations := [] }
      | some (inputJobs, inputActions) =>
        let batchCJA : JobAction :=
          inputActions.foldl (fun A I => { A with Inputs := A.Inputs ++ [I] })
            { Kind := JobActionKind.CompileJob, Inputs := [], Ty := outputType }
        let C1 := C.createAction batchCJA
        let context : JobContext :=
          { C := C1, Inputs := inputJobs, InputActions := inputActions, Output := output,
            OI := OI }
        let invocationInfo := constructInvocation batchCJA context
        .ok { Result := some (BatchJob.new batchCJA inputJobs output executablePath
                invocationInfo.Arguments invocationInfo.ExtraEnvironment
                invocationInfo.FilelistInfos jobs),
              C := C1, Invocations := [(batchCJA, context)] }

/-- The list of pointers without its repeated pointers, each pointer kept at
its first occurrence: the reading of "de-duplicated union, in order of first
occurrence" used in the statements. Two pointers are the same pointer when
their addresses are equal. -/
def firstOccurrences {α : Type} : List (Ptr α) → List (Ptr α)
  | [] => []
  | x :: xs => x :: (firstOccurrences xs).filter (fun y => decide (y.addr ≠ x.addr))

/-! ## Path resolution and job construction (ToolChain.cpp) -/

/-- A map of type `llvm::StringMap<std::string>`, as an association list in the
order of insertion. -/
abbrev StringMap := List (StringRef × StringRef)

/-- The value stored for a key of a `StringMap`, if the key is there. -/
def StringMap.lookup (M : StringMap) (Key : StringRef) : Option StringRef :=
  match M with
  | [] => none
  | (k, v) :: rest => if k = Key then some v else StringMap.lookup rest Key

/-- The call `insert(std::make_pair(Key, Value))` on a `StringMap`: the pair is
added when the key is absent, and the map is left alone when it is present.
The second component of the result tells whether the pair was added. -/
def StringMap.insert (M : StringMap) (Key Value : StringRef) : StringMap × Bool :=
  match StringMap.lookup M Key with
  | some _ => (M, false)
  | none => (M ++ [(Key, Value)], true)

/-- The call `setValue` through the iterator of the entry of `Key`. -/
def StringMap.setValue (M : StringMap) (Key Value : StringRef) : StringMap :=
  match M with
  | [] => []
  | (k, v) :: rest =>
    if k = Key then (k, Value) :: rest else (k, v) :: StringMap.setValue rest Key Value

/-- Modelled from the spec: the class `ToolChain` of `swift/Driver/ToolChain.h`,
which is not among the sources, with what its methods in ToolChain.cpp read
from outside: the macro `SWIFT_EXECUTABLE_NAME` (the frontend tool name of the
driver), the program path of the driver (`getDriver().getSwiftProgramPath()`),
the library functions `llvm::sys::path::parent_path` and
`llvm::sys::findProgramByName` (whose list of directories is empty for a search
of the process search path, and whose result is `none` when nothing is found),
and the cache from executable name to resolved path that the tool chain owns. -/
structure ToolChain where
  SWIFT_EXECUTABLE_NAME : StringRef
  SwiftProgramPath : StringRef
  parent_path : StringRef → StringRef
  findProgramByName : StringRef → List StringRef → Option StringRef
  ProgramLookupCache : StringMap

/-- The method `ToolChain::findProgramRelativeToSwiftImpl`. -/
def ToolChain.findProgramRelativeToSwiftImpl (TC : ToolChain) (executableName : StringRef) :
    StringRef :=
  let swiftPath := TC.SwiftProgramPath
  let swiftBinDir := TC.parent_path swiftPath
  match TC.findProgramByName executableName [swiftBinDir] with
  | some result => result
  | none => []

/-- What a call of `findProgramRelativeToSwift` leaves: the path returned, the
tool chain with its cache after the call, and the calls of
`findProgramRelativeToSwiftImpl` made, by executable name. -/
structure FindProgramResult where
  path : StringRef
  TC : ToolChain
  Searches : List StringRef

/-- The method `ToolChain::findProgramRelativeToSwift`. -/
def ToolChain.findProgramRelativeToSwift (TC : ToolChain) (executableName : StringRef) :
    FindProgramResult :=
  let insertionResult := StringMap.insert TC.ProgramLookupCache executableName []
  if insertionResult.2 then
    let path := TC.findProgramRelativeToSwiftImpl executableName
    let cache := StringMap.setValue insertionResult.1 executableName path
    { path := (StringMap.lookup cache executableName).getD [],
      TC := { TC with ProgramLookupCache := cache },
      Searches := [executableName] }
  else
    { path := (StringMap.lookup insertionResult.1 executableName).getD [],
      TC := { TC with ProgramLookupCache := insertionResult.1 },
      Searches := [] }

/-- The cache holds results of the search only: every entry is what
`findProgramRelativeToSwiftImpl` gives for its key. The empty cache is so, and
`findProgramRelativeToSwift`, the only writer of the cache, keeps it so. -/
def ToolChain.cacheSound (TC : ToolChain) : Bool :=
  TC.ProgramLookupCache.all (fun p => decide (p.2 = TC.findProgramRelativeToSwiftImpl p.1))

/-- The method `ToolChain::constructJob`, with the invocation builder as a
parameter: the `switch` over the kind of `JA` calls `constructInvocation` in
each of its cases. The result is the job and the tool chain after the call. -/
def ToolChain.constructJob (TC : ToolChain)
    (constructInvocation : JobAction → JobContext → InvocationInfo)
    (JA : JobAction) (C : Compilation) (inputs : List (Ptr Job))
    (inputActions : List (Ptr Action)) (output : CommandOutput) (OI : OutputInfo) :
    Job × ToolChain :=
  let context : JobContext :=
    { C := C, Inputs := inputs, InputActions := inputActions, Output := output, OI := OI }
  let invocationInfo := constructInvocation JA context
  -- Special-case the Swift frontend.
  if TC.SWIFT_EXECUTABLE_NAME = invocationInfo.ExecutableName then
    (Job.new JA inputs output TC.SwiftProgramPath invocationInfo.Arguments
      invocationInfo.ExtraEnvironment invocationInfo.FilelistInfos, TC)
  else
    let found := TC.findProgramRelativeToSwift invocationInfo.ExecutableName
    let relativePath := found.path
    let executablePath : StringRef :=
      if !relativePath.isEmpty then relativePath
      else
        match TC.findProgramByName invocationInfo.ExecutableName [] with
        | some systemPath => systemPath
        | none =>
          -- For debugging purposes.
          invocationInfo.ExecutableName
    (Job.new JA inputs output executablePath invocationInfo.Arguments
      invocationInfo.ExtraEnvironment invocationInfo.FilelistInfos, found.TC)

/-! ## `printSummary` (Job.cpp) -/

/-- The two loops of `Job::printSummary` that fill the local `Inputs`: the
argument of every input action among the inputs of the source action, then the
primary output filenames of every upstream job. -/
def Job.printSummary.collectInputs (J : Job) : List StringRef :=
  let Inputs : List StringRef :=
    J.Source.Inputs.foldl
      (fun Inputs A =>
        match A.obj with
        | .InputAction Input _ => Inputs ++ [Input]
        | .JobAction _ _ _ => Inputs)
      []
  J.Inputs.foldl
    (fun Inputs J' =>
      J'.obj.Output.getPrimaryOutputFilenames.foldl (fun Inputs f => Inputs ++ [f]) Inputs)
    Inputs

/-- The method `Job::printSummary`. The name of the kind of an action
(`getClassName`) and the library function `llvm::sys::path::filename` are
parameters. The difference `actual - limit` is written in decimal. -/
def Job.printSummary (getClassName : JobActionKind → StringRef)
    (filename : StringRef → StringRef) (J : Job) (os : raw_ostream) : raw_ostream :=
  let Inputs := Job.printSummary.collectInputs J
  let limit := 3
  let actual := Inputs.length
  let Inputs := if actual > limit then Inputs.take limit else Inputs
  let os := ((os.putStr ['\x7b']).putStr (getClassName J.Source.Kind)).putStr [':', ' ']
  let os :=
    interleave J.Output.getPrimaryOutputFilenames
      (fun os Arg => os.putStr (filename Arg)) (fun os => os.putChar ' ') os
  let os := os.putStr [' ', '<', '=', ' ']
  let os :=
    interleave Inputs (fun os Arg => os.putStr (filename Arg)) (fun os => os.putChar ' ') os
  let os :=
    if actual > limit then
      ((os.putStr [' ', '.', '.', '.', ' ']).putStr (Nat.toDigits 10 (actual - limit))).putStr
        [' ', 'm', 'o', 'r', 'e']
    else os
  os.putStr ['\x7d']

/-- The input list of the summary in the words of the specification: the
source-file arguments of the leaf input actions of the action, followed by the
primary output filenames of the upstream jobs. -/
def Job.specSummaryInputs (J : Job) : List StringRef :=
  J.Source.Inputs.filterMap
      (fun A =>
        match A.obj with
        | .InputAction Input _ => some Input
        | .JobAction _ _ _ => none)
    ++ J.Inputs.flatMap (fun J' => J'.obj.Output.getPrimaryOutputFilenames)

/-! ## `checkConflictAndAdd` without assertions -/

/-- The method `CommandOutput::checkConflictAndAdd` in a build with `NDEBUG`,
where the `assert` and the `DEBUG` block compile to nothing: the state it
leaves whether or not an existing entry is the output given. -/
def CommandOutput.checkConflictAndAdd_NDEBUG (c : CommandOutput)
    (OutputFile InputFile : StringRef) (type : types.ID) : CommandOutput :=
  let (D, M) := c.DerivedOutputMap.getOrCreateOutputMapForInput InputFile
  match TypeToPathMap.find M type with
  | none =>
    { c with DerivedOutputMap :=
        D.setOutputMapForInput InputFile (TypeToPathMap.insert M type OutputFile) }
  | some _ => { c with DerivedOutputMap := D }

/-! ## Sample data -/

/-- A command output with no input and an empty table. -/
def sampleOutput : CommandOutput :=
  { PrimaryOutputType := types.ID.TY_Other 0, InputFiles := [], DerivedOutputMap := ⟨[]⟩ }

/-- A job running `swift` with the given arguments and environment. -/
def sampleJob (Source : JobAction) (Arguments : List StringRef)
    (ExtraEnvironment : List (StringRef × StringRef)) : Job :=
  { Source := Source, Cond := Job.Condition.Always, Inputs := [], Output := sampleOutput,
    Executable := "swift".toList, Arguments := Arguments,
    ExtraEnvironment := ExtraEnvironment, FilelistFileInfos := [] }

/-- A compile action over the given inputs. -/
def sampleCompile (Inputs : List (Ptr Action)) : JobAction :=
  { Kind := JobActionKind.CompileJob, Inputs := Inputs, Ty := types.ID.TY_Other 0 }

/-- The address used in the examples for the input action of the file of a
given name: the characters of the name as a number in base 256, so that two
names give two addresses. -/
def sampleAddr (name : String) : Nat :=
  name.toList.foldl (fun n c => 256 * n + c.toNat) 0

/-- A pointer to the leaf input action of a Swift source file. -/
def swiftInput (name : String) : Ptr Action :=
  ⟨sampleAddr name, Action.InputAction name.toList types.ID.TY_Swift⟩

/-- A pointer to the leaf input action of a file that is not a Swift source. -/
def otherInput (name : String) : Ptr Action :=
  ⟨sampleAddr name, Action.InputAction name.toList (types.ID.TY_Other 3)⟩

/-- A compilation with an empty table and no action. -/
def sampleCompilation : Compilation :=
  { TheOutputInfo := { CompilerMode := OutputInfo.Mode.OtherMode 0 },
    DerivedOutputMap := ⟨[]⟩, Actions := [] }

/-- A tool chain whose frontend is `swift`, installed as `/usr/bin/swift`, on a
system where `ld` is found in `/usr/bin` by a search of that directory and
`clang` by a search of the process search path only. -/
def sampleToolChain : ToolChain :=
  { SWIFT_EXECUTABLE_NAME := "swift".toList,
    SwiftProgramPath := "/usr/bin/swift".toList,
    parent_path := fun _ => "/usr/bin".toList,
    findProgramByName := fun Name Paths =>
      if Name = "ld".toList ∧ Paths = ["/usr/bin".toList] then some "/usr/bin/ld".toList
      else if Name = "clang".toList ∧ Paths = [] then some "/opt/bin/clang".toList
      else none,
    ProgramLookupCache := [] }

/-- An invocation builder that asks for the executable of the given name. -/
def sampleInvocationOf (name : String) (_A : JobAction) (_context : JobContext) :
    InvocationInfo :=
  { ExecutableName := name.toList, Arguments := ["-v".toList],
    ExtraEnvironment := [("K".toList, "V".toList)], FilelistInfos := [⟨"list".toList⟩] }

/-- The names of the kinds of action used in the examples. -/
def sampleClassName (K : JobActionKind) : StringRef :=
  match K with
  | JobActionKind.CompileJob => "compile".toList
  | _ => "job".toList

/-- The part of a path after its last slash. -/
def sampleFilename (path : StringRef) : StringRef :=
  path.foldl (fun acc c => if c = '/' then [] else acc ++ [c]) []

/-- An invocation builder: the frontend with one argument per input action. -/
def sampleInvocation (_A : JobAction) (context : JobContext) : InvocationInfo :=
  { ExecutableName := "swift".toList,
    Arguments := context.InputActions.map (fun _ => "-primary-file".toList),
    ExtraEnvironment := [], FilelistInfos := [] }

/-- A compile job with five leaf inputs and two primary outputs, `/o/a.o` and
`/o/b.o`. -/
def sampleSummaryJob : Job :=
  { sampleJob
      (sampleCompile [swiftInput "/s/a.swift", swiftInput "/s/b.swift", otherInput "c.h",
        otherInput "d.h", otherInput "e.h"]) [] [] with
    Output :=
      { PrimaryOutputType := types.ID.TY_Other 0,
        InputFiles := ["a.swift".toList, "b.swift".toList],
        DerivedOutputMap :=
          ⟨[("a.swift".toList, [(types.ID.TY_Other 0, "/o/a.o".toList)]),
            ("b.swift".toList, [(types.ID.TY_Other 0, "/o/b.o".toList)])]⟩ } }

/-- A job that makes a precompiled header from `x.h`; the examples put it at
several addresses. -/
def samplePCHJob : Job :=
  sampleJob
    { Kind := JobActionKind.GeneratePCHJob, Inputs := [otherInput "x.h"],
      Ty := types.ID.TY_Other 5 } [] []

/-- A table that holds the primary output `a.o` for the input `a.swift`. -/
def sampleTable : OutputFileMap :=
  ⟨[("a.swift".toList, [(types.ID.TY_Other 0, "a.o".toList)])]⟩

end driver
end swift

namespace swift
namespace driver

/-! ## Facts about the escaper -/

theorem find_first_of_isSome (Str Chars : StringRef) :
    (StringRef.find_first_of Str Chars).isSome = true ↔ ∃ c ∈ Str, c ∈ Chars := by
  induction Str with
  | nil => simp [StringRef.find_first_of]
  | cons c rest ih =>
    unfold StringRef.find_first_of
    by_cases hc : c ∈ Chars
    · simp [hc]
    · rw [if_neg hc]
      have hm : ∀ o : Option Nat, (o.map (· + 1)).isSome = o.isSome := by
        intro o; cases o <;> rfl
      rw [hm, ih]
      simp [hc]

theorem foldl_escapeAndPrintChar (s : StringRef) (os : raw_ostream) :
    s.foldl escapeAndPrintChar os =
      os ++ s.flatMap (fun c => if c = '"' ∨ c = '\\' ∨ c = '$' then ['\\', c] else [c]) := by
  induction s generalizing os with
  | nil => simp
  | cons c rest ih =>
    simp only [List.foldl_cons, ih, List.flatMap_cons]
    by_cases hc : c = '"' ∨ c = '\\' ∨ c = '$'
    · simp [escapeAndPrintChar, raw_ostream.putChar, hc]
    · simp [escapeAndPrintChar, raw_ostream.putChar, hc]

theorem escapeAndPrintString_eq (os : raw_ostream) (s : StringRef) :
    escapeAndPrintString os s = os ++ specEscape s := by
  unfold escapeAndPrintString specEscape
  cases s with
  | nil => simp [raw_ostream.putStr]
  | cons a rest =>
    by_cases h : ∀ c ∈ a :: rest, c ≠ ' ' ∧ c ≠ '"' ∧ c ≠ '\\' ∧ c ≠ '$'
    · have hn : (StringRef.find_first_of (a :: rest) [' ', '"', '\\', '$']).isSome = false := by
        rw [Bool.eq_false_iff]
        intro hs
        obtain ⟨c, hc, hin⟩ := (find_first_of_isSome _ _).1 hs
        have := h c hc
        simp at hin
        tauto
      simp only [List.isEmpty_cons, hn, raw_ostream.putStr]
      rw [if_neg (List.cons_ne_nil a rest), if_pos h]
      simp
    · have hn : (StringRef.find_first_of (a :: rest) [' ', '"', '\\', '$']).isSome = true := by
        rw [find_first_of_isSome]
        by_contra hcon
        apply h
        intro c hc
        have : c ∉ [' ', '"', '\\', '$'] := fun hin => hcon ⟨c, hc, hin⟩
        simp at this
        tauto
      simp only [List.isEmpty_cons, hn, foldl_escapeAndPrintChar, raw_ostream.putChar]
      rw [if_neg (List.cons_ne_nil a rest), if_neg h]
      simp

/-- C1: for every argument string `s` (and every stream), `escapeAndPrintString`
appends exactly the text of the specification's escaping rule: `""` for the
empty string, `s` itself when `s` is non-empty and has no space, double quote,
backslash or dollar, and otherwise `s` between double quotes with each double
quote, backslash and dollar preceded by one backslash. The three examples of
the specification evaluate as stated. -/
theorem escapeAndPrintString_spec :
    (∀ (os : raw_ostream) (s : StringRef), escapeAndPrintString os s = os ++ specEscape s)
    ∧ (∀ os : raw_ostream, escapeAndPrintString os [] = os ++ ['"', '"'])
    ∧ (∀ (os : raw_ostream) (s : StringRef), s ≠ [] →
        (∀ c ∈ s, c ≠ ' ' ∧ c ≠ '"' ∧ c ≠ '\\' ∧ c ≠ '$') →
        escapeAndPrintString os s = os ++ s)
    ∧ (∀ (os : raw_ostream) (s : StringRef),
        (∃ c ∈ s, c = ' ' ∨ c = '"' ∨ c = '\\' ∨ c = '$') →
        escapeAndPrintString os s =
          os ++ ['"'] ++
            s.flatMap (fun c => if c = '"' ∨ c = '\\' ∨ c = '$' then ['\\', c] else [c])
            ++ ['"'])
    ∧ escapeAndPrintString [] "a b".toList = "\"a b\"".toList
    ∧ escapeAndPrintString [] "$HOME".toList = "\"\\$HOME\"".toList
    ∧ escapeAndPrintString [] "plain".toList = "plain".toList
    ∧ escapeAndPrintString [] "".toList = "\"\"".toList := by
  refine ⟨escapeAndPrintString_eq, ?_, ?_, ?_, by decide, by decide, by decide, by decide⟩
  · intro os
    simp [escapeAndPrintString_eq, specEscape]
  · intro os s hs h
    rw [escapeAndPrintString_eq, specEscape, if_neg hs, if_pos h]
  · intro os s ⟨c, hc, hsp⟩
    have hs : s ≠ [] := List.ne_nil_of_mem hc
    have hno : ¬ ∀ c ∈ s, c ≠ ' ' ∧ c ≠ '"' ∧ c ≠ '\\' ∧ c ≠ '$' := by
      intro hall
      have := hall c hc
      tauto
    rw [escapeAndPrintString_eq, specEscape, if_neg hs, if_neg hno]
    simp

/-- Witness for C1 at the argument `a"b`, which has a double quote. -/
theorem escapeAndPrintString_spec_witness :
    escapeAndPrintString [] "a\"b".toList = "\"a\\\"b\"".toList := by
  have h := escapeAndPrintString_spec.2.2.2.1 [] "a\"b".toList ⟨'"', by decide, by decide⟩
  rw [h]
  decide

/-! ## Command lines -/

theorem intercalate_cons_flatMap (sep x : List Char) (xs : List (List Char)) :
    List.intercalate sep (x :: xs) = x ++ xs.flatMap (fun y => sep ++ y) := by
  induction xs generalizing x with
  | nil => simp [List.intercalate]
  | cons y ys ih =>
    have h := ih y
    simp only [List.intercalate] at h ⊢
    rw [List.intersperse_cons_cons, List.flatten_cons, List.flatten_cons, h]
    simp

theorem foldl_between_each {α : Type} (f : α → List Char) (sep : List Char) (xs : List α)
    (acc : raw_ostream) :
    xs.foldl (fun s y => (s ++ sep) ++ f y) acc = acc ++ xs.flatMap (fun y => sep ++ f y) := by
  induction xs generalizing acc with
  | nil => simp
  | cons y ys ih =>
    rw [List.foldl_cons, ih, List.flatMap_cons]
    simp

theorem printArguments_eq (os : raw_ostream) (Args : List StringRef) :
    Job.printArguments os Args = os ++ List.intercalate [' '] (Args.map specEscape) := by
  unfold Job.printArguments interleave
  cases Args with
  | nil => simp [List.intercalate]
  | cons a rest =>
    simp only [raw_ostream.putChar, escapeAndPrintString_eq, List.map_cons]
    rw [intercalate_cons_flatMap]
    have h := foldl_between_each specEscape [' '] rest (os ++ specEscape a)
    rw [h, List.flatMap_map]
    simp

theorem printCommandLine_eq (J : Job) (os : raw_ostream) (t : StringRef) :
    J.printCommandLine os t =
      os ++ specEscape J.Executable ++ [' ']
        ++ List.intercalate [' '] (J.Arguments.map specEscape) ++ t := by
  simp [Job.printCommandLine, printArguments_eq, escapeAndPrintString_eq,
    raw_ostream.putChar, raw_ostream.putStr]

theorem foldl_environment (env : List (StringRef × StringRef)) (acc : raw_ostream) :
    env.foldl
        (fun s pair => (((s.putStr [' ']).putStr pair.1).putStr ['=']).putStr pair.2) acc
      = acc ++ env.flatMap (fun pair => [' '] ++ pair.1 ++ ['='] ++ pair.2) := by
  induction env generalizing acc with
  | nil => simp
  | cons p ps ih =>
    rw [List.foldl_cons, ih, List.flatMap_cons]
    simp [raw_ostream.putStr]

theorem printCommandLineAndEnvironment_eq (J : Job) (os : raw_ostream) (t : StringRef) :
    J.printCommandLineAndEnvironment os t =
      J.printCommandLine os []
        ++ (if J.ExtraEnvironment = [] then []
            else [' ', ' ', '#']
              ++ J.ExtraEnvironment.flatMap (fun pair => [' '] ++ pair.1 ++ ['='] ++ pair.2))
        ++ ['\n'] := by
  unfold Job.printCommandLineAndEnvironment
  cases henv : J.ExtraEnvironment with
  | nil => simp [raw_ostream.putStr]
  | cons p ps =>
    simp only [List.isEmpty_cons, Bool.not_false, if_true, if_neg (List.cons_ne_nil p ps)]
    rw [foldl_environment]
    simp [raw_ostream.putStr]

/-- C2, as stated, fails for a job without arguments: for the job `swift` with
no argument and a newline as terminator the code writes `swift`, a space and
the newline, and not the space-joined sequence (here the single item `swift`)
followed by the newline. -/
theorem printCommandLine_not_space_joined :
    (sampleJob (sampleCompile []) [] []).printCommandLine [] ['\n'] = "swift \n".toList
    ∧ (sampleJob (sampleCompile []) [] []).printCommandLine [] ['\n'] ≠
        List.intercalate [' ']
          (((sampleJob (sampleCompile []) [] []).Executable
            :: (sampleJob (sampleCompile []) [] []).Arguments).map specEscape) ++ ['\n'] := by
  decide

/-- C2, amended: for every job, stream and terminator `t`, `printCommandLine`
writes the escaped executable, one space, the escaped arguments separated by
single spaces, and then `t`. For a non-empty argument list that is the
space-joined sequence of the escaped executable and the escaped arguments,
followed by `t`; for an empty one it is the escaped executable, one space and
`t`. -/
theorem printCommandLine_spec (J : Job) (os : raw_ostream) (t : StringRef) :
    J.printCommandLine os t =
        os ++ specEscape J.Executable ++ [' ']
          ++ List.intercalate [' '] (J.Arguments.map specEscape) ++ t
    ∧ (J.Arguments ≠ [] →
        J.printCommandLine os t =
          os ++ List.intercalate [' '] ((J.Executable :: J.Arguments).map specEscape) ++ t)
    ∧ (J.Arguments = [] →
        J.printCommandLine os t = os ++ specEscape J.Executable ++ [' '] ++ t) := by
  refine ⟨printCommandLine_eq J os t, ?_, ?_⟩
  · intro hne
    rw [printCommandLine_eq]
    cases hargs : J.Arguments with
    | nil => exact absurd hargs hne
    | cons a rest =>
      simp only [List.map_cons]
      rw [intercalate_cons_flatMap, intercalate_cons_flatMap]
      simp
  · intro hnil
    rw [printCommandLine_eq, hnil]
    simp [List.intercalate]

/-- Witness for C2 (amended): the job `swift -c "a b"` with a newline. -/
theorem printCommandLine_spec_witness :
    (sampleJob (sampleCompile []) ["-c".toList, "a b".toList] []).printCommandLine [] ['\n']
      = "swift -c \"a b\"\n".toList := by
  have h := (printCommandLine_spec
    (sampleJob (sampleCompile []) ["-c".toList, "a b".toList] []) [] ['\n']).2.1 (by decide)
  rw [h]
  decide

/-- C3 fails on the code at the job `swift -c` with an empty environment and
the empty string as terminator: `printCommandLineAndEnvironment` ends its
output with a newline although the caller asked for no terminator, so the
output is not that of `printCommandLine` with the same terminator. For every
job the output is the same whatever terminator is passed. -/
theorem printCommandLineAndEnvironment_ignores_terminator :
    (sampleJob (sampleCompile []) ["-c".toList] []).printCommandLineAndEnvironment [] []
        = "swift -c\n".toList
    ∧ (sampleJob (sampleCompile []) ["-c".toList] []).printCommandLine [] []
        = "swift -c".toList
    ∧ (∀ (J : Job) (os : raw_ostream) (t : StringRef),
        J.printCommandLineAndEnvironment os t = J.printCommandLineAndEnvironment os ['\n']) := by
  refine ⟨by decide, by decide, ?_⟩
  intro J os t
  rfl

/-! ## The output file map -/

theorem find_insert_of_none (M : TypeToPathMap) (k : types.ID) (o : StringRef)
    (h : TypeToPathMap.find M k = none) :
    TypeToPathMap.find (TypeToPathMap.insert M k o) k = some o := by
  have happ : ∀ M : TypeToPathMap, TypeToPathMap.find M k = none →
      TypeToPathMap.find (M ++ [(k, o)]) k = some o := by
    intro M
    induction M with
    | nil => intro _; simp [TypeToPathMap.find]
    | cons p rest ih =>
      obtain ⟨k', v⟩ := p
      intro hp
      by_cases hk : k' = k
      · simp [TypeToPathMap.find, hk] at hp
      · simp only [TypeToPathMap.find, hk, if_false] at hp
        simp only [List.cons_append, TypeToPathMap.find, hk, if_false]
        exact ih hp
  simp only [TypeToPathMap.insert, h]
  exact happ M h

theorem getOutputMapForInput_set_same (D : OutputFileMap) (i : StringRef) (M : TypeToPathMap) :
    (D.setOutputMapForInput i M).getOutputMapForInput i = some M := by
  obtain ⟨l⟩ := D
  simp only [OutputFileMap.setOutputMapForInput, OutputFileMap.getOutputMapForInput]
  induction l with
  | nil =>
    simp [OutputFileMap.setOutputMapForInput.go, OutputFileMap.getOutputMapForInput.go]
  | cons p rest ih =>
    obtain ⟨k, M'⟩ := p
    by_cases hk : k = i
    · simp [OutputFileMap.setOutputMapForInput.go, OutputFileMap.getOutputMapForInput.go, hk]
    · simp only [OutputFileMap.setOutputMapForInput.go, OutputFileMap.getOutputMapForInput.go,
        hk, if_false]
      exact ih

theorem entry_set_same (D : OutputFileMap) (i : StringRef) (M : TypeToPathMap) (k : types.ID) :
    (D.setOutputMapForInput i M).entry i k = TypeToPathMap.find M k := by
  simp [OutputFileMap.entry, getOutputMapForInput_set_same]

theorem getOutputForInputAndType_eq (c : CommandOutput) (i : StringRef) (k : types.ID) :
    c.getOutputForInputAndType i k = (c.DerivedOutputMap.entry i k).getD [] := by
  unfold CommandOutput.getOutputForInputAndType OutputFileMap.entry
  cases c.DerivedOutputMap.getOutputMapForInput i with
  | none => rfl
  | some M =>
    simp only
    cases hf : TypeToPathMap.find M k <;> rfl

/-- With no entry for `(i, k)` the registration succeeds and stores `o`; the
registered inputs and the primary kind are not touched. -/
theorem checkConflictAndAdd_of_entry_none (c : CommandOutput) (o i : StringRef) (k : types.ID)
    (h : c.DerivedOutputMap.entry i k = none) :
    ∃ D, c.checkConflictAndAdd o i k = .ok { c with DerivedOutputMap := D }
      ∧ D.entry i k = some o := by
  unfold OutputFileMap.entry at h
  unfold CommandOutput.checkConflictAndAdd OutputFileMap.getOrCreateOutputMapForInput
  cases hM : c.DerivedOutputMap.getOutputMapForInput i with
  | none =>
    refine ⟨(c.DerivedOutputMap.setOutputMapForInput i []).setOutputMapForInput i
      (TypeToPathMap.insert [] k o), ?_, ?_⟩
    · simp only [TypeToPathMap.find]
    · rw [entry_set_same]
      exact find_insert_of_none [] k o rfl
  | some M =>
    rw [hM] at h
    simp only at h
    refine ⟨c.DerivedOutputMap.setOutputMapForInput i (TypeToPathMap.insert M k o), ?_, ?_⟩
    · simp only [h]
    · rw [entry_set_same]
      exact find_insert_of_none M k o h

/-- With an entry for `(i, k)` the registration changes nothing: it succeeds
with the same state when the entry is `o`, and fails with the conflict
assertion otherwise. -/
theorem checkConflictAndAdd_of_entry_some (c : CommandOutput) (o i o' : StringRef)
    (k : types.ID) (h : c.DerivedOutputMap.entry i k = some o') :
    c.checkConflictAndAdd o i k =
      if o' = o then .ok c else .error InvariantViolation.OutSecondEqOutputFile := by
  unfold OutputFileMap.entry at h
  unfold CommandOutput.checkConflictAndAdd OutputFileMap.getOrCreateOutputMapForInput
  cases hM : c.DerivedOutputMap.getOutputMapForInput i with
  | none => rw [hM] at h; simp at h
  | some M =>
    rw [hM] at h
    simp only at h
    simp only [h]

/-- After a successful registration of `o` for `(i, k)` the table holds `o`
there, and the registered inputs and primary kind are as before. -/
theorem checkConflictAndAdd_ok (c c' : CommandOutput) (o i : StringRef) (k : types.ID)
    (h : c.checkConflictAndAdd o i k = .ok c') :
    c'.DerivedOutputMap.entry i k = some o ∧ c'.InputFiles = c.InputFiles
      ∧ c'.PrimaryOutputType = c.PrimaryOutputType := by
  cases he : c.DerivedOutputMap.entry i k with
  | none =>
    obtain ⟨D, hD, hDe⟩ := checkConflictAndAdd_of_entry_none c o i k he
    rw [hD] at h
    injection h with h
    subst h
    exact ⟨hDe, rfl, rfl⟩
  | some o' =>
    rw [checkConflictAndAdd_of_entry_some c o i o' k he] at h
    by_cases ho : o' = o
    · rw [if_pos ho] at h
      injection h with h
      subst h
      exact ⟨by rw [he, ho], rfl, rfl⟩
    · rw [if_neg ho] at h
      cases h

/-! ## Registering and reading outputs -/

theorem addPrimaryOutput_eq (c : CommandOutput) (o i : StringRef) :
    c.addPrimaryOutput o i =
      ({ c with InputFiles := c.InputFiles ++ [i] } : CommandOutput).checkConflictAndAdd o i
        c.PrimaryOutputType := rfl

/-- C4: for every command output `c`, input `i` and output `o`, whenever
`addPrimaryOutput(o, i)` returns, the lookup for `(i, primary kind of c)` in the
state it leaves returns `o` (and the primary kind is the one of `c`); and it
does return unless the table already holds a different output for that pair. -/
theorem addPrimaryOutput_then_lookup (c : CommandOutput) (o i : StringRef) :
    (∀ c', c.addPrimaryOutput o i = .ok c' →
        c'.getOutputForInputAndType i c.PrimaryOutputType = o
        ∧ c'.PrimaryOutputType = c.PrimaryOutputType)
    ∧ ((∀ o', c.DerivedOutputMap.entry i c.PrimaryOutputType = some o' → o' = o) →
        ∃ c', c.addPrimaryOutput o i = .ok c') := by
  constructor
  · intro c' h
    rw [addPrimaryOutput_eq] at h
    obtain ⟨he, _, hk⟩ := checkConflictAndAdd_ok _ _ _ _ _ h
    rw [getOutputForInputAndType_eq, he]
    exact ⟨rfl, hk⟩
  · intro hno
    rw [addPrimaryOutput_eq]
    cases he : c.DerivedOutputMap.entry i c.PrimaryOutputType with
    | none =>
      obtain ⟨D, hD, _⟩ := checkConflictAndAdd_of_entry_none
        ({ c with InputFiles := c.InputFiles ++ [i] } : CommandOutput) o i c.PrimaryOutputType he
      exact ⟨_, hD⟩
    | some o' =>
      have := checkConflictAndAdd_of_entry_some
        ({ c with InputFiles := c.InputFiles ++ [i] } : CommandOutput) o i o' c.PrimaryOutputType he
      rw [if_pos (hno o' he)] at this
      exact ⟨_, this⟩

/-- Witness for C4: registering `a.o` for `a.swift` on an empty command output. -/
theorem addPrimaryOutput_then_lookup_witness :
    ∃ c', sampleOutput.addPrimaryOutput "a.o".toList "a.swift".toList = .ok c'
      ∧ c'.getOutputForInputAndType "a.swift".toList sampleOutput.PrimaryOutputType
          = "a.o".toList := by
  obtain ⟨c', hc'⟩ := (addPrimaryOutput_then_lookup sampleOutput "a.o".toList
    "a.swift".toList).2 (by intro o' h; simp [OutputFileMap.entry,
      OutputFileMap.getOutputMapForInput, OutputFileMap.getOutputMapForInput.go,
      sampleOutput] at h)
  exact ⟨c', hc', ((addPrimaryOutput_then_lookup sampleOutput "a.o".toList
    "a.swift".toList).1 c' hc').1⟩

/-- C5, as stated, fails: on an empty command output, registering `a.o` for
`a.swift` once leaves the input list `[a.swift]`, and registering the same pair
a second time leaves `[a.swift, a.swift]`, so the two states differ. -/
theorem addPrimaryOutput_twice_ne_once :
    ((sampleOutput.addPrimaryOutput "a.o".toList "a.swift".toList).toOption.map
        CommandOutput.InputFiles = some ["a.swift".toList])
    ∧ (((sampleOutput.addPrimaryOutput "a.o".toList "a.swift".toList).bind
          (fun c => c.addPrimaryOutput "a.o".toList "a.swift".toList)).toOption.map
        CommandOutput.InputFiles = some ["a.swift".toList, "a.swift".toList])
    ∧ ((sampleOutput.addPrimaryOutput "a.o".toList "a.swift".toList).bind
          (fun c => c.addPrimaryOutput "a.o".toList "a.swift".toList))
        ≠ sampleOutput.addPrimaryOutput "a.o".toList "a.swift".toList := by
  refine ⟨by decide, by decide, ?_⟩
  intro h
  have h2 := congrArg (fun r => r.toOption.map CommandOutput.InputFiles) h
  revert h2
  decide

/-- C5, amended: when `addPrimaryOutput(o, i)` has returned the state `c1`,
calling it again with the same pair succeeds, leaves the shared output table
and the primary kind as they are, and appends `i` once more to the list of
registered input files. -/
theorem addPrimaryOutput_again (c c1 : CommandOutput) (o i : StringRef)
    (h : c.addPrimaryOutput o i = .ok c1) :
    c1.addPrimaryOutput o i = .ok { c1 with InputFiles := c1.InputFiles ++ [i] } := by
  rw [addPrimaryOutput_eq] at h
  obtain ⟨he, _, _⟩ := checkConflictAndAdd_ok _ _ _ _ _ h
  rw [addPrimaryOutput_eq]
  have := checkConflictAndAdd_of_entry_some
    ({ c1 with InputFiles := c1.InputFiles ++ [i] } : CommandOutput) o i o c1.PrimaryOutputType
    (by
      have hk := (checkConflictAndAdd_ok _ _ _ _ _ h).2.2
      simp only at hk
      rw [hk]
      exact he)
  rw [if_pos rfl] at this
  exact this

/-- Witness for C5 (amended): the second registration of `a.o` for `a.swift`. -/
theorem addPrimaryOutput_again_witness :
    ∃ c1, sampleOutput.addPrimaryOutput "a.o".toList "a.swift".toList = .ok c1
      ∧ c1.addPrimaryOutput "a.o".toList "a.swift".toList
          = .ok { c1 with InputFiles := c1.InputFiles ++ ["a.swift".toList] } := by
  obtain ⟨c1, hc1⟩ : ∃ c1, sampleOutput.addPrimaryOutput "a.o".toList "a.swift".toList
      = .ok c1 := ⟨_, rfl⟩
  exact ⟨c1, hc1, addPrimaryOutput_again sampleOutput c1 _ _ hc1⟩

theorem setAdditionalOutputForType_single (c : CommandOutput) (i : StringRef) (k : types.ID)
    (f : StringRef) (hi : c.InputFiles = [i]) :
    c.setAdditionalOutputForType k f = c.checkConflictAndAdd f i k := by
  unfold CommandOutput.setAdditionalOutputForType
  have hlen : c.InputFiles.length = 1 := by rw [hi]; rfl
  rw [dif_pos hlen]
  congr 1
  simp [hi]

theorem getAdditionalOutputForType_single (c : CommandOutput) (i : StringRef) (k : types.ID)
    (hi : c.InputFiles = [i]) :
    c.getAdditionalOutputForType k = .ok (c.getOutputForInputAndType i k) := by
  unfold CommandOutput.getAdditionalOutputForType
  have hlen : c.InputFiles.length = 1 := by rw [hi]; rfl
  rw [dif_pos hlen]
  congr 2
  simp [hi]

/-- C6: when the shared output table already holds `o'` for `(i, k)`,
registering `o` for `(i, k)` fails with the assertion `Out->second == OutputFile`
if `o'` differs from `o` and succeeds if `o'` is `o`. This holds for
`checkConflictAndAdd` itself, for `addPrimaryOutput` when `k` is the primary
kind, and for `setAdditionalOutputForType` on a command output whose single
registered input is `i`. -/
theorem register_conflict_iff (c : CommandOutput) (i o o' : StringRef) (k : types.ID)
    (h : c.DerivedOutputMap.entry i k = some o') :
    (c.checkConflictAndAdd o i k = .error InvariantViolation.OutSecondEqOutputFile ↔ o' ≠ o)
    ∧ (c.checkConflictAndAdd o i k = .ok c ↔ o' = o)
    ∧ (k = c.PrimaryOutputType →
        (c.addPrimaryOutput o i = .error InvariantViolation.OutSecondEqOutputFile ↔ o' ≠ o)
        ∧ ((∃ c', c.addPrimaryOutput o i = .ok c') ↔ o' = o))
    ∧ (c.InputFiles = [i] →
        (c.setAdditionalOutputForType k o = .error InvariantViolation.OutSecondEqOutputFile
          ↔ o' ≠ o)
        ∧ ((∃ c', c.setAdditionalOutputForType k o = .ok c') ↔ o' = o)) := by
  have hc := checkConflictAndAdd_of_entry_some c o i o' k h
  refine ⟨?_, ?_, ?_, ?_⟩
  · rw [hc]
    by_cases ho : o' = o <;> simp [ho]
  · rw [hc]
    by_cases ho : o' = o <;> simp [ho]
  · intro hk
    subst hk
    have hc1 := checkConflictAndAdd_of_entry_some
      ({ c with InputFiles := c.InputFiles ++ [i] } : CommandOutput) o i o'
      c.PrimaryOutputType h
    rw [addPrimaryOutput_eq, hc1]
    by_cases ho : o' = o <;> simp [ho]
  · intro hi
    rw [setAdditionalOutputForType_single c i k o hi, hc]
    by_cases ho : o' = o <;> simp [ho]

/-- Witness for C6: the table holds `a.o` for `a.swift`, and `b.o` is
registered for the same pair. -/
theorem register_conflict_iff_witness :
    ({ sampleOutput with
        InputFiles := ["a.swift".toList],
        DerivedOutputMap := ⟨[("a.swift".toList, [(types.ID.TY_Other 0, "a.o".toList)])]⟩ }
      : CommandOutput).addPrimaryOutput "b.o".toList "a.swift".toList
      = .error InvariantViolation.OutSecondEqOutputFile :=
  ((register_conflict_iff
    ({ sampleOutput with
        InputFiles := ["a.swift".toList],
        DerivedOutputMap := ⟨[("a.swift".toList, [(types.ID.TY_Other 0, "a.o".toList)])]⟩ }
      : CommandOutput) "a.swift".toList "b.o".toList "a.o".toList (types.ID.TY_Other 0)
    (by decide)).2.2.1 rfl).1.2 (by decide)

/-- C7: `getPrimaryOutputFilename` fails (with the assertion
`InputFiles.size() == 1`) exactly when the number of registered input files is
not 1, and with exactly one registered input `i` it returns the table entry for
`(i, primary kind)`, or the empty string if there is none. -/
theorem getPrimaryOutputFilename_spec (c : CommandOutput) :
    ((∃ e, c.getPrimaryOutputFilename = .error e) ↔ c.InputFiles.length ≠ 1)
    ∧ (c.getPrimaryOutputFilename = .error InvariantViolation.InputFilesSizeEqOne
        ↔ c.InputFiles.length ≠ 1)
    ∧ (∀ i, c.InputFiles = [i] →
        c.getPrimaryOutputFilename =
          .ok (match c.DerivedOutputMap.entry i c.PrimaryOutputType with
               | some o => o
               | none => [])) := by
  refine ⟨?_, ?_, ?_⟩
  · unfold CommandOutput.getPrimaryOutputFilename
    by_cases hlen : c.InputFiles.length = 1
    · simp [hlen]
    · simp [hlen]
  · unfold CommandOutput.getPrimaryOutputFilename
    by_cases hlen : c.InputFiles.length = 1
    · simp [hlen]
    · simp [hlen]
  · intro i hi
    unfold CommandOutput.getPrimaryOutputFilename
    have hlen : c.InputFiles.length = 1 := by rw [hi]; rfl
    rw [dif_pos hlen, getOutputForInputAndType_eq]
    have h0 : c.InputFiles[0] = i := by simp [hi]
    rw [h0]
    cases c.DerivedOutputMap.entry i c.PrimaryOutputType <;> rfl

/-- Witness for C7: one registered input `a.swift` whose primary output is `a.o`. -/
theorem getPrimaryOutputFilename_spec_witness :
    ({ sampleOutput with
        InputFiles := ["a.swift".toList],
        DerivedOutputMap := ⟨[("a.swift".toList, [(types.ID.TY_Other 0, "a.o".toList)])]⟩ }
      : CommandOutput).getPrimaryOutputFilename = .ok "a.o".toList :=
  (getPrimaryOutputFilename_spec
    ({ sampleOutput with
        InputFiles := ["a.swift".toList],
        DerivedOutputMap := ⟨[("a.swift".toList, [(types.ID.TY_Other 0, "a.o".toList)])]⟩ }
      : CommandOutput)).2.2 "a.swift".toList rfl

theorem foldl_getPrimaryOutputFilenames (c : CommandOutput) (ins : List StringRef)
    (V : List StringRef) :
    ins.foldl
        (fun V I =>
          let Out := c.getOutputForInputAndType I c.PrimaryOutputType
          if !Out.isEmpty then V ++ [Out] else V)
        V
      = V ++ (ins.filterMap (fun i => c.DerivedOutputMap.entry i c.PrimaryOutputType)).filter
          (fun o => !o.isEmpty) := by
  induction ins generalizing V with
  | nil => simp
  | cons i rest ih =>
    rw [List.foldl_cons, ih, getOutputForInputAndType_eq]
    cases he : c.DerivedOutputMap.entry i c.PrimaryOutputType with
    | none => simp [List.filterMap_cons, he]
    | some o =>
      by_cases ho : o = []
      · simp [List.filterMap_cons, he, ho]
      · have ho' : o.isEmpty = false := by
          cases o with
          | nil => exact absurd rfl ho
          | cons _ _ => rfl
        simp [List.filterMap_cons, he, List.filter_cons, ho']

/-- C8: `getPrimaryOutputFilenames` returns, in the order of the registered
input files, the primary-kind table entry of each registered input, leaving out
exactly the inputs whose entry is absent or empty; so its length is at most the
number of registered inputs and it contains no empty string. -/
theorem getPrimaryOutputFilenames_spec (c : CommandOutput) :
    c.getPrimaryOutputFilenames =
        (c.InputFiles.filterMap
            (fun i => c.DerivedOutputMap.entry i c.PrimaryOutputType)).filter
          (fun o => !o.isEmpty)
    ∧ c.getPrimaryOutputFilenames.length ≤ c.InputFiles.length
    ∧ [] ∉ c.getPrimaryOutputFilenames := by
  have heq : c.getPrimaryOutputFilenames =
      (c.InputFiles.filterMap
          (fun i => c.DerivedOutputMap.entry i c.PrimaryOutputType)).filter
        (fun o => !o.isEmpty) := by
    unfold CommandOutput.getPrimaryOutputFilenames
    rw [foldl_getPrimaryOutputFilenames]
    simp
  refine ⟨heq, ?_, ?_⟩
  · rw [heq]
    exact le_trans (List.length_filter_le _ _) (List.length_filterMap_le _ _)
  · rw [heq]
    intro hmem
    have := (List.mem_filter.1 hmem).2
    simp at this

/-- C9: on a command output with exactly one registered input `i` and no table
entry for `(i, k)`, `setAdditionalOutputForType(k, f)` succeeds and
`getAdditionalOutputForType(k)` on the state it leaves returns `f`; and when the
number of registered inputs is not 1 both operations fail with the assertion
`InputFiles.size() == 1`. -/
theorem setAdditionalOutputForType_then_get (c : CommandOutput) (k : types.ID)
    (f : StringRef) :
    (∀ i, c.InputFiles = [i] → c.DerivedOutputMap.entry i k = none →
        ∃ c', c.setAdditionalOutputForType k f = .ok c'
          ∧ c'.getAdditionalOutputForType k = .ok f)
    ∧ (c.InputFiles.length ≠ 1 →
        c.setAdditionalOutputForType k f = .error InvariantViolation.InputFilesSizeEqOne
        ∧ c.getAdditionalOutputForType k = .error InvariantViolation.InputFilesSizeEqOne) := by
  constructor
  · intro i hi he
    obtain ⟨D, hD, hDe⟩ := checkConflictAndAdd_of_entry_none c f i k he
    refine ⟨{ c with DerivedOutputMap := D }, ?_, ?_⟩
    · rw [setAdditionalOutputForType_single c i k f hi, hD]
    · rw [getAdditionalOutputForType_single
        ({ c with DerivedOutputMap := D } : CommandOutput) i k hi, getOutputForInputAndType_eq]
      simp only [hDe, Option.getD_some]
  · intro hlen
    unfold CommandOutput.setAdditionalOutputForType CommandOutput.getAdditionalOutputForType
    rw [dif_neg hlen, dif_neg hlen]
    exact ⟨rfl, rfl⟩

/-- Witness for C9: the single input `a.swift` gets the additional output `a.d`
of kind 7, and an empty command output rejects both operations. -/
theorem setAdditionalOutputForType_then_get_witness :
    (∃ c', ({ sampleOutput with InputFiles := ["a.swift".toList] }
          : CommandOutput).setAdditionalOutputForType (types.ID.TY_Other 7) "a.d".toList
        = .ok c'
      ∧ c'.getAdditionalOutputForType (types.ID.TY_Other 7) = .ok "a.d".toList)
    ∧ sampleOutput.getAdditionalOutputForType (types.ID.TY_Other 7)
        = .error InvariantViolation.InputFilesSizeEqOne :=
  ⟨(setAdditionalOutputForType_then_get
      ({ sampleOutput with InputFiles := ["a.swift".toList] } : CommandOutput)
      (types.ID.TY_Other 7) "a.d".toList).1 "a.swift".toList rfl (by decide),
   ((setAdditionalOutputForType_then_get sampleOutput (types.ID.TY_Other 7) "a.d".toList).2
      (by decide)).2⟩

/-! ## Batchability -/

theorem findSingleSwiftInput_loop_isSome (Inputs : List (Ptr Action)) :
    ((findSingleSwiftInput.loop Inputs none).isSome = true
        ↔ Inputs.countP (fun I => I.obj.isSwiftInput) = 1)
    ∧ (∀ a, (findSingleSwiftInput.loop Inputs (some a)).isSome = true
        ↔ Inputs.countP (fun I => I.obj.isSwiftInput) = 0) := by
  induction Inputs with
  | nil => simp [findSingleSwiftInput.loop]
  | cons I rest ih =>
    obtain ⟨ih0, ih1⟩ := ih
    obtain ⟨addr, A⟩ := I
    rw [List.countP_cons]
    cases A with
    | InputAction Arg Ty =>
      by_cases hTy : Ty = types.ID.TY_Swift
      · subst hTy
        have hsw : Action.isSwiftInput (Action.InputAction Arg types.ID.TY_Swift) = true := by
          simp [Action.isSwiftInput]
        constructor
        · simp only [findSingleSwiftInput.loop, if_true, hsw, ih1]
          omega
        · intro a
          simp only [findSingleSwiftInput.loop, if_true, hsw]
          simp
      · have hsw : Action.isSwiftInput (Action.InputAction Arg Ty) = false := by
          simp [Action.isSwiftInput, hTy]
        constructor
        · simp only [findSingleSwiftInput.loop, hTy, if_false, hsw, ih0, Bool.false_eq_true,
            Nat.add_zero]
        · intro a
          simp only [findSingleSwiftInput.loop, hTy, if_false, hsw, ih1, Bool.false_eq_true,
            Nat.add_zero]
    | JobAction Kind Ins Ty =>
      have hsw : Action.isSwiftInput (Action.JobAction Kind Ins Ty) = false := by
        simp [Action.isSwiftInput]
      constructor
      · simp only [findSingleSwiftInput.loop, hsw, ih0, Bool.false_eq_true, if_false,
          Nat.add_zero]
      · intro a
        simp only [findSingleSwiftInput.loop, hsw, ih1, Bool.false_eq_true, if_false,
          Nat.add_zero]

/-- C10: `jobIsBatchable(J)` is true if and only if the source action of `J` is
a compile action and exactly one of its immediate inputs is a leaf input action
of Swift-source type; with zero such inputs, or two or more, it is false. Other
inputs are not counted. -/
theorem jobIsBatchable_iff (J : Job) :
    (ToolChain.jobIsBatchable J = true ↔
        J.Source.Kind = JobActionKind.CompileJob
        ∧ J.Source.Inputs.countP (fun I => I.obj.isSwiftInput) = 1)
    ∧ (J.Source.Inputs.countP (fun I => I.obj.isSwiftInput) = 0 → ToolChain.jobIsBatchable J = false)
    ∧ (2 ≤ J.Source.Inputs.countP (fun I => I.obj.isSwiftInput) → ToolChain.jobIsBatchable J = false) := by
  have hiff : ToolChain.jobIsBatchable J = true ↔
      J.Source.Kind = JobActionKind.CompileJob
      ∧ J.Source.Inputs.countP (fun I => I.obj.isSwiftInput) = 1 := by
    unfold ToolChain.jobIsBatchable findSingleSwiftInput
    by_cases hk : J.Source.Kind = JobActionKind.CompileJob
    · simp only [hk, ne_eq, not_true_eq_false, if_false, true_and]
      exact (findSingleSwiftInput_loop_isSome J.Source.Inputs).1
    · simp [hk]
  refine ⟨hiff, ?_, ?_⟩
  · intro h0
    rw [Bool.eq_false_iff]
    intro hb
    have := (hiff.1 hb).2
    omega
  · intro h2
    rw [Bool.eq_false_iff]
    intro hb
    have := (hiff.1 hb).2
    omega

/-- Witness for C10: a compile job over two Swift sources is not batchable,
and one over a Swift source and another input is. -/
theorem jobIsBatchable_iff_witness :
    ToolChain.jobIsBatchable
        (sampleJob (sampleCompile [swiftInput "a.swift",
          swiftInput "b.swift"]) [] []) = false
    ∧ ToolChain.jobIsBatchable
        (sampleJob (sampleCompile [swiftInput "a.swift",
          otherInput "a.h"]) [] []) = true :=
  ⟨(jobIsBatchable_iff
      (sampleJob (sampleCompile [swiftInput "a.swift",
        swiftInput "b.swift"]) [] [])).2.2 (by decide),
   (jobIsBatchable_iff
      (sampleJob (sampleCompile [swiftInput "a.swift",
        otherInput "a.h"]) [] [])).1.2
      ⟨rfl, by decide⟩⟩

/-! ## Batch combinability -/

theorem envLoop_eq_true_iff (AEnv BEnv : List (StringRef × StringRef))
    (hlen : AEnv.length = BEnv.length) :
    ToolChain.jobsAreBatchCombinable.envLoop AEnv BEnv = true ↔ AEnv = BEnv := by
  induction AEnv generalizing BEnv with
  | nil =>
    cases BEnv with
    | nil => simp [ToolChain.jobsAreBatchCombinable.envLoop]
    | cons b bs => simp at hlen
  | cons a as ih =>
    cases BEnv with
    | nil => simp at hlen
    | cons b bs =>
      have hl : as.length = bs.length := by simpa using hlen
      unfold ToolChain.jobsAreBatchCombinable.envLoop
      by_cases h1 : a.1 = b.1
      · by_cases h2 : a.2 = b.2
        · have hab : a = b := Prod.ext h1 h2
          simp only [h1, h2, ne_eq, not_true_eq_false, if_false, ih bs hl, List.cons.injEq, hab,
            true_and]
        · have hab : a ≠ b := fun e => h2 (by rw [e])
          simp [h1, h2, hab]
      · have hab : a ≠ b := fun e => h1 (by rw [e])
        simp [h1, hab]

theorem jobIsBatchable_eq_true_iff (A : Job) :
    ToolChain.jobIsBatchable A = true ↔
      A.Source.Kind = JobActionKind.CompileJob ∧ (findSingleSwiftInput A.Source).isSome = true := by
  unfold ToolChain.jobIsBatchable
  by_cases hk : A.Source.Kind = JobActionKind.CompileJob <;> simp [hk]

/-- The value of `jobsAreBatchCombinable` as a conjunction of its checks. -/
theorem jobsAreBatchCombinable_iff (A B : Job) :
    ToolChain.jobsAreBatchCombinable A B = true ↔
      ToolChain.jobIsBatchable A = true ∧ ToolChain.jobIsBatchable B = true
      ∧ A.Executable = B.Executable
      ∧ A.Output.PrimaryOutputType = B.Output.PrimaryOutputType
      ∧ A.ExtraEnvironment = B.ExtraEnvironment := by
  rw [jobIsBatchable_eq_true_iff, jobIsBatchable_eq_true_iff]
  unfold ToolChain.jobsAreBatchCombinable
  by_cases hA : A.Source.Kind = JobActionKind.CompileJob
  swap
  · simp [hA]
  by_cases hB : B.Source.Kind = JobActionKind.CompileJob
  swap
  · simp [hB]
  cases hsA : findSingleSwiftInput A.Source with
  | none => simp [hA, hB]
  | some a =>
    cases hsB : findSingleSwiftInput B.Source with
    | none => simp [hA, hB]
    | some b =>
      by_cases he : A.Executable = B.Executable
      swap
      · simp [hA, hB, he]
      by_cases ht : A.Output.PrimaryOutputType = B.Output.PrimaryOutputType
      swap
      · simp [hA, hB, he, ht]
      by_cases hl : A.ExtraEnvironment.length = B.ExtraEnvironment.length
      · simp [hA, hB, he, ht, hl, envLoop_eq_true_iff _ _ hl]
      · have hne : A.ExtraEnvironment ≠ B.ExtraEnvironment := fun e => hl (by rw [e])
        simp [hA, hB, he, ht, hl, hne]

/-- C11: `jobsAreBatchCombinable(A, B)` is true if and only if both jobs are
batchable, their executable paths are equal as strings, their command outputs
have the same primary output kind, and their extra-environment lists have the
same length with equal key and equal value at each position. In particular it
implies that both jobs are batchable. -/
theorem jobsAreBatchCombinable_spec (A B : Job) :
    (ToolChain.jobsAreBatchCombinable A B = true ↔
      ToolChain.jobIsBatchable A = true ∧ ToolChain.jobIsBatchable B = true
      ∧ A.Executable = B.Executable
      ∧ A.Output.PrimaryOutputType = B.Output.PrimaryOutputType
      ∧ A.ExtraEnvironment.length = B.ExtraEnvironment.length
      ∧ ∀ (i : Nat) (hA : i < A.ExtraEnvironment.length) (hB : i < B.ExtraEnvironment.length),
          (A.ExtraEnvironment[i]).1 = (B.ExtraEnvironment[i]).1
          ∧ (A.ExtraEnvironment[i]).2 = (B.ExtraEnvironment[i]).2)
    ∧ (ToolChain.jobsAreBatchCombinable A B = true →
        ToolChain.jobIsBatchable A = true ∧ ToolChain.jobIsBatchable B = true) := by
  have henv : A.ExtraEnvironment = B.ExtraEnvironment ↔
      A.ExtraEnvironment.length = B.ExtraEnvironment.length
      ∧ ∀ (i : Nat) (hA : i < A.ExtraEnvironment.length) (hB : i < B.ExtraEnvironment.length),
          (A.ExtraEnvironment[i]).1 = (B.ExtraEnvironment[i]).1
          ∧ (A.ExtraEnvironment[i]).2 = (B.ExtraEnvironment[i]).2 := by
    constructor
    · intro h
      refine ⟨by rw [h], ?_⟩
      intro i hA hB
      have hi : A.ExtraEnvironment[i] = B.ExtraEnvironment[i] := by
        simp only [h]
      rw [hi]
      exact ⟨rfl, rfl⟩
    · intro ⟨hl, hp⟩
      apply List.ext_getElem hl
      intro i hA hB
      exact Prod.ext (hp i hA hB).1 (hp i hA hB).2
  constructor
  · rw [jobsAreBatchCombinable_iff, henv]
  · intro h
    have := (jobsAreBatchCombinable_iff A B).1 h
    exact ⟨this.1, this.2.1⟩

/-- Witness for C11: two compile jobs over one Swift source each, with the same
executable, output kind and environment. -/
theorem jobsAreBatchCombinable_spec_witness :
    ToolChain.jobIsBatchable
        (sampleJob (sampleCompile [swiftInput "a.swift"]) [] [("K".toList, "V".toList)]) = true
    ∧ ToolChain.jobIsBatchable
        (sampleJob (sampleCompile [swiftInput "b.swift"]) [] [("K".toList, "V".toList)]) = true :=
  (jobsAreBatchCombinable_spec
    (sampleJob (sampleCompile [swiftInput "a.swift"]) [] [("K".toList, "V".toList)])
    (sampleJob (sampleCompile [swiftInput "b.swift"]) [] [("K".toList, "V".toList)])).2
    (by decide)

/-- C12: `jobsAreBatchCombinable` is reflexive on batchable jobs. -/
theorem jobsAreBatchCombinable_refl (A : Job) (h : ToolChain.jobIsBatchable A = true) :
    ToolChain.jobsAreBatchCombinable A A = true :=
  (jobsAreBatchCombinable_iff A A).2 ⟨h, h, rfl, rfl, rfl⟩

/-- Witness for C12: a compile job over one Swift source. -/
theorem jobsAreBatchCombinable_refl_witness :
    ToolChain.jobIsBatchable (sampleJob (sampleCompile [swiftInput "a.swift"]) [] []) = true
    ∧ ToolChain.jobsAreBatchCombinable
        (sampleJob (sampleCompile [swiftInput "a.swift"]) [] [])
        (sampleJob (sampleCompile [swiftInput "a.swift"]) [] []) = true :=
  ⟨by decide,
   jobsAreBatchCombinable_refl (sampleJob (sampleCompile [swiftInput "a.swift"]) [] [])
     (by decide)⟩

/-- C13: `jobsAreBatchCombinable` is symmetric, for every pair of jobs,
batchable or not. -/
theorem jobsAreBatchCombinable_symm (A B : Job) :
    ToolChain.jobsAreBatchCombinable A B = ToolChain.jobsAreBatchCombinable B A := by
  rw [Bool.eq_iff_iff, jobsAreBatchCombinable_iff, jobsAreBatchCombinable_iff]
  constructor
  · intro ⟨h1, h2, h3, h4, h5⟩
    exact ⟨h2, h1, h3.symm, h4.symm, h5.symm⟩
  · intro ⟨h1, h2, h3, h4, h5⟩
    exact ⟨h2, h1, h3.symm, h4.symm, h5.symm⟩

/-- C14: `jobsAreBatchCombinable` is transitive, and on the batchable jobs it is
an equivalence relation, so it partitions them into groups. -/
theorem jobsAreBatchCombinable_equivalence :
    (∀ A B C : Job, ToolChain.jobsAreBatchCombinable A B = true →
        ToolChain.jobsAreBatchCombinable B C = true →
        ToolChain.jobsAreBatchCombinable A C = true)
    ∧ Equivalence (fun (A B : { J : Job // ToolChain.jobIsBatchable J = true }) =>
        ToolChain.jobsAreBatchCombinable A.1 B.1 = true) := by
  have htrans : ∀ A B C : Job, ToolChain.jobsAreBatchCombinable A B = true →
      ToolChain.jobsAreBatchCombinable B C = true →
      ToolChain.jobsAreBatchCombinable A C = true := by
    intro A B C hab hbc
    rw [jobsAreBatchCombinable_iff] at hab hbc ⊢
    obtain ⟨a1, _, a3, a4, a5⟩ := hab
    obtain ⟨_, b2, b3, b4, b5⟩ := hbc
    exact ⟨a1, b2, a3.trans b3, a4.trans b4, a5.trans b5⟩
  refine ⟨htrans, ?_, ?_, ?_⟩
  · intro A
    exact (jobsAreBatchCombinable_iff A.1 A.1).2 ⟨A.2, A.2, rfl, rfl, rfl⟩
  · intro A B hab
    rw [jobsAreBatchCombinable_iff] at hab ⊢
    obtain ⟨h1, h2, h3, h4, h5⟩ := hab
    exact ⟨h2, h1, h3.symm, h4.symm, h5.symm⟩
  · intro A B C hab hbc
    exact htrans A.1 B.1 C.1 hab hbc

/-- Witness for C14: three compile jobs over one Swift source each. -/
theorem jobsAreBatchCombinable_equivalence_witness :
    ToolChain.jobsAreBatchCombinable
      (sampleJob (sampleCompile [swiftInput "a.swift"]) [] [])
      (sampleJob (sampleCompile [swiftInput "c.swift"]) [] []) = true :=
  jobsAreBatchCombinable_equivalence.1
    (sampleJob (sampleCompile [swiftInput "a.swift"]) [] [])
    (sampleJob (sampleCompile [swiftInput "b.swift"]) [] [])
    (sampleJob (sampleCompile [swiftInput "c.swift"]) [] [])
    (by decide) (by decide)

/-- C15 fails on the code at two compile jobs with the same executable, output
kind and environment, the first over `a.swift` and the header `x.h`, the second
over `b.swift` alone: `jobsAreBatchCombinable` is true for them although the
inputs of the first compile action other than its Swift source are `[x.h]` and
those of the second are none. -/
theorem jobsAreBatchCombinable_ignores_inputs :
    ToolChain.jobsAreBatchCombinable
        (sampleJob (sampleCompile [swiftInput "a.swift", otherInput "x.h"]) [] [])
        (sampleJob (sampleCompile [swiftInput "b.swift"]) [] []) = true
    ∧ (sampleJob (sampleCompile [swiftInput "a.swift", otherInput "x.h"]) [] []
        ).Source.nonPrimaryInputs = [otherInput "x.h"]
    ∧ (sampleJob (sampleCompile [swiftInput "b.swift"]) [] []).Source.nonPrimaryInputs = []
    ∧ (sampleJob (sampleCompile [swiftInput "a.swift", otherInput "x.h"]) [] []
        ).Source.nonPrimaryInputs
      ≠ (sampleJob (sampleCompile [swiftInput "b.swift"]) [] []).Source.nonPrimaryInputs := by
  decide

/-! ## Set vectors -/

theorem mem_addr_firstOccurrences {α : Type} (l : List (Ptr α)) (a : Nat) :
    a ∈ (firstOccurrences l).map Ptr.addr ↔ a ∈ l.map Ptr.addr := by
  induction l with
  | nil => simp [firstOccurrences]
  | cons x xs ih =>
    simp only [firstOccurrences, List.map_cons, List.mem_cons]
    by_cases hax : a = x.addr
    · simp [hax]
    · rw [← ih]
      simp only [hax, false_or, List.mem_map, List.mem_filter, decide_eq_true_eq]
      constructor
      · rintro ⟨y, ⟨hy, _⟩, hya⟩
        exact ⟨y, hy, hya⟩
      · rintro ⟨y, hy, hya⟩
        exact ⟨y, ⟨hy, fun e => hax (hya.symm.trans e)⟩, hya⟩

theorem mem_of_mem_firstOccurrences {α : Type} (l : List (Ptr α)) (x : Ptr α)
    (h : x ∈ firstOccurrences l) : x ∈ l := by
  induction l with
  | nil => simp [firstOccurrences] at h
  | cons y ys ih =>
    simp only [firstOccurrences, List.mem_cons] at h
    rcases h with h | h
    · rw [h]
      exact List.mem_cons_self _ _
    · exact List.mem_cons_of_mem _ (ih (List.mem_filter.1 h).1)

theorem nodup_addr_firstOccurrences {α : Type} (l : List (Ptr α)) :
    ((firstOccurrences l).map Ptr.addr).Nodup := by
  induction l with
  | nil => simp [firstOccurrences]
  | cons x xs ih =>
    simp only [firstOccurrences, List.map_cons, List.nodup_cons]
    refine ⟨?_, List.Nodup.sublist ((List.filter_sublist _).map Ptr.addr) ih⟩
    intro hmem
    obtain ⟨y, hy, hyx⟩ := List.mem_map.1 hmem
    have := (List.mem_filter.1 hy).2
    simp only [decide_eq_true_eq] at this
    exact this hyx

theorem foldl_insert_eq {α : Type} (l acc : List (Ptr α)) :
    l.foldl SetVector.insert acc
      = acc ++ (firstOccurrences l).filter (fun y => decide (y.addr ∉ acc.map Ptr.addr)) := by
  induction l generalizing acc with
  | nil => simp [firstOccurrences]
  | cons x xs ih =>
    rw [List.foldl_cons, ih]
    simp only [firstOccurrences]
    by_cases hx : x.addr ∈ acc.map Ptr.addr
    · have hins : SetVector.insert acc x = acc := by
        unfold SetVector.insert
        rw [if_pos hx]
      have hdrop : decide (x.addr ∉ acc.map Ptr.addr) = false := by
        simpa using hx
      rw [hins, List.filter_cons_of_neg (by rw [hdrop]; exact Bool.false_ne_true),
        List.filter_filter]
      congr 1
      apply List.filter_congr
      intro y _
      by_cases hy : y.addr ∈ acc.map Ptr.addr
      · simp [hy]
      · have hyx : y.addr ≠ x.addr := fun e => hy (e ▸ hx)
        simp [hy, hyx]
    · have hins : SetVector.insert acc x = acc ++ [x] := by
        unfold SetVector.insert
        rw [if_neg hx]
      have hkeep : decide (x.addr ∉ acc.map Ptr.addr) = true := by
        simpa using hx
      rw [hins, List.filter_cons]
      simp only [hkeep, if_true]
      rw [List.filter_filter, List.append_assoc, List.singleton_append]
      congr 2
      apply List.filter_congr
      intro y _
      by_cases hyx : y.addr = x.addr
      · simp [hyx]
      · simp [hyx]

theorem foldl_insert_nil {α : Type} (l : List (Ptr α)) :
    l.foldl SetVector.insert [] = firstOccurrences l := by
  rw [foldl_insert_eq]
  simp

/-! ## Building a batch job -/

theorem collect_of_compile (jobs : List Job)
    (h : ∀ J ∈ jobs, J.Source.Kind = JobActionKind.CompileJob)
    (inputJobs : List (Ptr Job)) (inputActions : List (Ptr Action)) :
    ToolChain.constructBatchJob.collect jobs (inputJobs, inputActions) =
      some ((jobs.flatMap Job.Inputs).foldl SetVector.insert inputJobs,
            (jobs.flatMap (fun J => J.Source.Inputs)).foldl SetVector.insert inputActions) := by
  induction jobs generalizing inputJobs inputActions with
  | nil => simp [ToolChain.constructBatchJob.collect]
  | cons J rest ih =>
    have hJ : J.Source.Kind = JobActionKind.CompileJob := h J (List.mem_cons_self _ _)
    have hrest : ∀ J' ∈ rest, J'.Source.Kind = JobActionKind.CompileJob :=
      fun J' hJ' => h J' (List.mem_cons_of_mem _ hJ')
    simp only [ToolChain.constructBatchJob.collect, hJ, ne_eq, not_true_eq_false, if_false,
      ih hrest, List.flatMap_cons, List.foldl_append]

theorem foldl_addOutputs (jobs : List Job) (o : CommandOutput) :
    jobs.foldl (fun o J => o.addOutputs J.Output) o =
      { o with InputFiles := o.InputFiles ++ jobs.flatMap (fun J => J.Output.InputFiles) } := by
  induction jobs generalizing o with
  | nil => simp
  | cons J rest ih =>
    rw [List.foldl_cons, ih]
    simp [CommandOutput.addOutputs, List.flatMap_cons]

theorem foldl_addInput (ins : List (Ptr Action)) (A : JobAction) :
    ins.foldl (fun A I => { A with Inputs := A.Inputs ++ [I] }) A =
      { A with Inputs := A.Inputs ++ ins } := by
  induction ins generalizing A with
  | nil => simp
  | cons I rest ih =>
    rw [List.foldl_cons, ih]
    simp

/-- What `constructBatchJob` returns for a non-empty list in which every
ordered pair of jobs is combinable. -/
theorem constructBatchJob_of_combinable
    (constructInvocation : JobAction → JobContext → InvocationInfo)
    (J0 : Job) (rest : List Job) (C : Compilation)
    (hcomb : ∀ A ∈ J0 :: rest, ∀ B ∈ J0 :: rest, ToolChain.jobsAreBatchCombinable A B = true) :
    ∃ (r : ConstructBatchJobResult) (B : BatchJob),
      ToolChain.constructBatchJob constructInvocation (J0 :: rest) C = .ok r
      ∧ r.Result = some B
      ∧ B.CombinedJobs = J0 :: rest
      ∧ B.Executable = J0.Executable
      ∧ B.Cond = Job.Condition.Always
      ∧ B.Output =
          { PrimaryOutputType := J0.Output.PrimaryOutputType,
            InputFiles := (J0 :: rest).flatMap (fun J => J.Output.InputFiles),
            DerivedOutputMap := C.DerivedOutputMap }
      ∧ B.Inputs = firstOccurrences ((J0 :: rest).flatMap Job.Inputs)
      ∧ B.Source =
          { Kind := JobActionKind.CompileJob,
            Inputs := firstOccurrences ((J0 :: rest).flatMap (fun J => J.Source.Inputs)),
            Ty := J0.Output.PrimaryOutputType }
      ∧ r.C = C.createAction B.Source
      ∧ r.Invocations =
          [(B.Source,
            { C := r.C, Inputs := B.Inputs, InputActions := B.Source.Inputs, Output := B.Output,
              OI := { C.TheOutputInfo with
                        CompilerMode := OutputInfo.Mode.BatchModeCompile } })] := by
  have hall : (List.all (J0 :: rest) fun A =>
      List.all (J0 :: rest) fun B => ToolChain.jobsAreBatchCombinable A B) = true := by
    rw [List.all_eq_true]
    intro A hA
    rw [List.all_eq_true]
    intro B hB
    exact hcomb A hA B hB
  have hkind : ∀ J ∈ J0 :: rest, J.Source.Kind = JobActionKind.CompileJob := by
    intro J hJ
    have := (jobsAreBatchCombinable_iff J J).1 (hcomb J hJ J hJ)
    exact ((jobIsBatchable_eq_true_iff J).1 this.1).1
  have hcol := collect_of_compile (J0 :: rest) hkind [] []
  rw [foldl_insert_nil, foldl_insert_nil] at hcol
  unfold ToolChain.constructBatchJob
  rw [hall]
  simp only [Bool.not_true, Bool.false_eq_true, if_false, hcol, foldl_addOutputs,
    foldl_addInput, List.nil_append]
  exact ⟨_, _, rfl, rfl, rfl, rfl, rfl, rfl, rfl, rfl, rfl, rfl⟩

/-- C16: for an empty job list `constructBatchJob` returns nothing (`nullptr`):
no assertion fails, the compilation is left as it was, so no synthetic action is
created, and the invocation builder is not called. -/
theorem constructBatchJob_nil
    (constructInvocation : JobAction → JobContext → InvocationInfo) (C : Compilation) :
    ToolChain.constructBatchJob constructInvocation [] C =
      .ok { Result := none, C := C, Invocations := [] } := by
  rfl

/-- C17: for a single batchable job `J`, `constructBatchJob([J])` yields a batch
job whose combined-jobs list is `[J]` and whose command output has the primary
output kind and the registered inputs of the output of `J`; the output refers to
the table of the compilation, so when `J` shares that table the two command
outputs are equal and have the same primary output filenames. For every
non-empty list in which all pairs are combinable, `getCombinedJobs` of the
result is the given list. -/
theorem constructBatchJob_combined
    (constructInvocation : JobAction → JobContext → InvocationInfo) (C : Compilation) :
    (∀ J : Job, ToolChain.jobIsBatchable J = true →
      ∃ (r : ConstructBatchJobResult) (B : BatchJob),
        ToolChain.constructBatchJob constructInvocation [J] C = .ok r
        ∧ r.Result = some B
        ∧ B.getCombinedJobs = [J]
        ∧ B.Output.PrimaryOutputType = J.Output.PrimaryOutputType
        ∧ B.Output.InputFiles = J.Output.InputFiles
        ∧ B.Output.DerivedOutputMap = C.DerivedOutputMap
        ∧ (J.Output.DerivedOutputMap = C.DerivedOutputMap →
            B.Output = J.Output
            ∧ B.Output.getPrimaryOutputFilenames = J.Output.getPrimaryOutputFilenames))
    ∧ (∀ jobs : List Job, jobs ≠ [] →
        (∀ A ∈ jobs, ∀ B ∈ jobs, ToolChain.jobsAreBatchCombinable A B = true) →
        ∃ (r : ConstructBatchJobResult) (B : BatchJob),
          ToolChain.constructBatchJob constructInvocation jobs C = .ok r
          ∧ r.Result = some B
          ∧ B.getCombinedJobs = jobs) := by
  constructor
  · intro J hJ
    have hcomb : ∀ A ∈ [J], ∀ B ∈ [J], ToolChain.jobsAreBatchCombinable A B = true := by
      intro A hA B hB
      rw [List.mem_singleton] at hA hB
      rw [hA, hB]
      exact (jobsAreBatchCombinable_iff J J).2 ⟨hJ, hJ, rfl, rfl, rfl⟩
    obtain ⟨r, B, hr, hB, hcj, _, _, hout, _⟩ :=
      constructBatchJob_of_combinable constructInvocation J [] C hcomb
    have hout' : B.Output =
        { PrimaryOutputType := J.Output.PrimaryOutputType, InputFiles := J.Output.InputFiles,
          DerivedOutputMap := C.DerivedOutputMap } := by
      rw [hout]
      simp
    refine ⟨r, B, hr, hB, hcj, ?_, ?_, ?_, ?_⟩
    · rw [hout']
    · rw [hout']
    · rw [hout']
    · intro hshare
      have heq : B.Output = J.Output := by
        rw [hout', ← hshare]
      exact ⟨heq, by rw [heq]⟩
  · intro jobs hne hcomb
    cases jobs with
    | nil => exact absurd rfl hne
    | cons J0 rest =>
      obtain ⟨r, B, hr, hB, hcj, _⟩ :=
        constructBatchJob_of_combinable constructInvocation J0 rest C hcomb
      exact ⟨r, B, hr, hB, hcj⟩

/-- Witness for C17: one compile job over `a.swift` whose output registers
`a.swift`, in a compilation whose table, shared with the job, holds `a.o` for
`a.swift`: the command output of the batch job is that of the job and its
primary output filenames are `a.o`. -/
theorem constructBatchJob_combined_witness :
    ∃ (r : ConstructBatchJobResult) (B : BatchJob),
      ToolChain.constructBatchJob sampleInvocation
          [{ sampleJob (sampleCompile [swiftInput "a.swift"]) [] [] with
              Output := { sampleOutput with
                InputFiles := ["a.swift".toList], DerivedOutputMap := sampleTable } }]
          { sampleCompilation with DerivedOutputMap := sampleTable } = .ok r
      ∧ r.Result = some B
      ∧ B.Output =
          { sampleOutput with InputFiles := ["a.swift".toList], DerivedOutputMap := sampleTable }
      ∧ B.Output.getPrimaryOutputFilenames = ["a.o".toList] := by
  obtain ⟨r, B, hr, hB, _, _, _, _, hshare⟩ :=
    (constructBatchJob_combined sampleInvocation
        { sampleCompilation with DerivedOutputMap := sampleTable }).1
      { sampleJob (sampleCompile [swiftInput "a.swift"]) [] [] with
          Output := { sampleOutput with
            InputFiles := ["a.swift".toList], DerivedOutputMap := sampleTable } }
      (by decide)
  refine ⟨r, B, hr, hB, (hshare rfl).1, ?_⟩
  rw [(hshare rfl).2]
  decide

/-- C18: for a non-empty list in which all pairs are combinable, the batch job
returned by `constructBatchJob` has the executable path of the first job,
which is the executable path of every job of the list, and its command output
has the primary output kind of the first job, which is that of every job of
the list. -/
theorem constructBatchJob_executable_and_kind
    (constructInvocation : JobAction → JobContext → InvocationInfo)
    (J0 : Job) (rest : List Job) (C : Compilation)
    (hcomb : ∀ A ∈ J0 :: rest, ∀ B ∈ J0 :: rest, ToolChain.jobsAreBatchCombinable A B = true) :
    ∃ (r : ConstructBatchJobResult) (B : BatchJob),
      ToolChain.constructBatchJob constructInvocation (J0 :: rest) C = .ok r
      ∧ r.Result = some B
      ∧ B.Executable = J0.Executable
      ∧ (∀ J ∈ J0 :: rest, J.Executable = B.Executable)
      ∧ B.Output.PrimaryOutputType = J0.Output.PrimaryOutputType
      ∧ (∀ J ∈ J0 :: rest, J.Output.PrimaryOutputType = B.Output.PrimaryOutputType) := by
  obtain ⟨r, B, hr, hB, _, hexe, _, hout, _⟩ :=
    constructBatchJob_of_combinable constructInvocation J0 rest C hcomb
  have hkind : B.Output.PrimaryOutputType = J0.Output.PrimaryOutputType := by rw [hout]
  refine ⟨r, B, hr, hB, hexe, ?_, hkind, ?_⟩
  · intro J hJ
    have := (jobsAreBatchCombinable_iff J J0).1 (hcomb J hJ J0 (List.mem_cons_self _ _))
    rw [hexe]
    exact this.2.2.1
  · intro J hJ
    have := (jobsAreBatchCombinable_iff J J0).1 (hcomb J hJ J0 (List.mem_cons_self _ _))
    rw [hkind]
    exact this.2.2.2.1

/-- Witness for C18: the compile jobs of `a.swift` and `b.swift`. -/
theorem constructBatchJob_executable_and_kind_witness :
    ∃ (r : ConstructBatchJobResult) (B : BatchJob),
      ToolChain.constructBatchJob sampleInvocation
          [sampleJob (sampleCompile [swiftInput "a.swift"]) [] [],
           sampleJob (sampleCompile [swiftInput "b.swift"]) [] []] sampleCompilation = .ok r
      ∧ r.Result = some B
      ∧ B.Executable = "swift".toList := by
  obtain ⟨r, B, hr, hB, hexe, _⟩ :=
    constructBatchJob_executable_and_kind sampleInvocation
      (sampleJob (sampleCompile [swiftInput "a.swift"]) [] [])
      [sampleJob (sampleCompile [swiftInput "b.swift"]) [] []] sampleCompilation (by decide)
  exact ⟨r, B, hr, hB, hexe⟩

theorem mem_addr_flatMap {α β : Type} (l : List β) (f : β → List (Ptr α)) (a : Nat) :
    a ∈ (l.flatMap f).map Ptr.addr ↔ ∃ J ∈ l, a ∈ (f J).map Ptr.addr := by
  simp only [List.mem_map, List.mem_flatMap]
  constructor
  · rintro ⟨x, ⟨J, hJ, hx⟩, hxa⟩
    exact ⟨J, hJ, x, hx, hxa⟩
  · rintro ⟨J, hJ, x, hx, hxa⟩
    exact ⟨x, ⟨J, hJ, hx⟩, hxa⟩

/-- C19: for a non-empty list in which all pairs are combinable, the
upstream-job list of the batch job returned by `constructBatchJob` has no job
twice, has a job if and only if some job of the list has it as an upstream job,
and lists the jobs in the order of their first occurrence in the upstream lists
of the jobs taken in order. A job is here a pointer to a job, and two pointers
are the same job when their addresses are equal: no address is in the list
twice, an address is in it if and only if some job of the list has an upstream
pointer with that address, every pointer in it is an upstream pointer of some
job of the list, and two jobs with the same fields at two addresses are both
kept. -/
theorem constructBatchJob_inputs
    (constructInvocation : JobAction → JobContext → InvocationInfo)
    (J0 : Job) (rest : List Job) (C : Compilation)
    (hcomb : ∀ A ∈ J0 :: rest, ∀ B ∈ J0 :: rest, ToolChain.jobsAreBatchCombinable A B = true) :
    ∃ (r : ConstructBatchJobResult) (B : BatchJob),
      ToolChain.constructBatchJob constructInvocation (J0 :: rest) C = .ok r
      ∧ r.Result = some B
      ∧ (B.Inputs.map Ptr.addr).Nodup
      ∧ (∀ a : Nat, a ∈ B.Inputs.map Ptr.addr ↔ ∃ J ∈ J0 :: rest, a ∈ J.Inputs.map Ptr.addr)
      ∧ (∀ I ∈ B.Inputs, ∃ J ∈ J0 :: rest, I ∈ J.Inputs)
      ∧ B.Inputs = firstOccurrences ((J0 :: rest).flatMap Job.Inputs) := by
  obtain ⟨r, B, hr, hB, _, _, _, _, hin, _⟩ :=
    constructBatchJob_of_combinable constructInvocation J0 rest C hcomb
  refine ⟨r, B, hr, hB, ?_, ?_, ?_, hin⟩
  · rw [hin]
    exact nodup_addr_firstOccurrences _
  · intro a
    rw [hin, mem_addr_firstOccurrences, mem_addr_flatMap]
  · intro I hI
    rw [hin] at hI
    exact List.mem_flatMap.1 (mem_of_mem_firstOccurrences _ I hI)

/-- Witness for C19: the compile job of `a.swift` has the header job at address
100 and a second job with the same fields at address 200 as its upstream jobs,
and the compile job of `b.swift` has the header job at address 100 again. The
batch job lists the pointer 100 once and keeps the pointer 200. -/
theorem constructBatchJob_inputs_witness :
    ∃ (r : ConstructBatchJobResult) (B : BatchJob),
      ToolChain.constructBatchJob sampleInvocation
          [{ sampleJob (sampleCompile [swiftInput "a.swift"]) [] [] with
              Inputs := [⟨100, samplePCHJob⟩, ⟨200, samplePCHJob⟩] },
           { sampleJob (sampleCompile [swiftInput "b.swift"]) [] [] with
              Inputs := [⟨100, samplePCHJob⟩] }] sampleCompilation = .ok r
      ∧ r.Result = some B
      ∧ B.Inputs = [⟨100, samplePCHJob⟩, ⟨200, samplePCHJob⟩] := by
  obtain ⟨r, B, hr, hB, _, _, _, hin⟩ :=
    constructBatchJob_inputs sampleInvocation
      { sampleJob (sampleCompile [swiftInput "a.swift"]) [] [] with
          Inputs := [⟨100, samplePCHJob⟩, ⟨200, samplePCHJob⟩] }
      [{ sampleJob (sampleCompile [swiftInput "b.swift"]) [] [] with
          Inputs := [⟨100, samplePCHJob⟩] }] sampleCompilation (by decide)
  refine ⟨r, B, hr, hB, ?_⟩
  rw [hin]
  decide

/-- C20, as stated, fails: for the single compile job of `a.swift` the
upstream-action set of the batch job is `[a.swift]`, the Swift source itself,
which is not an input of the compile action other than its Swift source. -/
theorem constructBatchJob_inputActions_have_primary :
    ((ToolChain.constructBatchJob sampleInvocation
        [sampleJob (sampleCompile [swiftInput "a.swift"]) [] []] sampleCompilation).toOption.map
      (fun r => r.Result.map (fun B => B.Source.Inputs)))
      = some (some [swiftInput "a.swift"])
    ∧ ((ToolChain.constructBatchJob sampleInvocation
        [sampleJob (sampleCompile [swiftInput "a.swift"]) [] []] sampleCompilation).toOption.map
      (fun r => r.Invocations.map (fun p => p.2.InputActions)))
      = some [[swiftInput "a.swift"]]
    ∧ ¬ ∃ J ∈ [sampleJob (sampleCompile [swiftInput "a.swift"]) [] []],
        (swiftInput "a.swift").addr ∈ J.Source.nonPrimaryInputs.map Ptr.addr := by
  decide

/-- C20, amended: for a non-empty list in which all pairs are combinable, the
upstream-action set built by `constructBatchJob`, which is the input list of
the synthetic compile action the compilation is given and is passed to the one
call of the invocation builder, is the de-duplicated union of all the inputs of
the compile actions of the jobs, their Swift sources included: no action is in
it twice, an action is in it if and only if it is an input of the compile
action of some job of the list, and the order is that of first occurrence. An
action is here a pointer to an action, and two pointers are the same action
when their addresses are equal: no address is in the set twice, an address is
in it if and only if some compile action of the list has an input pointer with
that address, every pointer in it is an input of the compile action of some
job of the list, and two actions with the same fields at two addresses are
both kept. -/
theorem constructBatchJob_inputActions
    (constructInvocation : JobAction → JobContext → InvocationInfo)
    (J0 : Job) (rest : List Job) (C : Compilation)
    (hcomb : ∀ A ∈ J0 :: rest, ∀ B ∈ J0 :: rest, ToolChain.jobsAreBatchCombinable A B = true) :
    ∃ (r : ConstructBatchJobResult) (B : BatchJob) (context : JobContext),
      ToolChain.constructBatchJob constructInvocation (J0 :: rest) C = .ok r
      ∧ r.Result = some B
      ∧ B.Source.Kind = JobActionKind.CompileJob
      ∧ r.C.Actions = C.Actions ++ [B.Source]
      ∧ r.Invocations = [(B.Source, context)]
      ∧ context.InputActions = B.Source.Inputs
      ∧ (B.Source.Inputs.map Ptr.addr).Nodup
      ∧ (∀ a : Nat, a ∈ B.Source.Inputs.map Ptr.addr
          ↔ ∃ J ∈ J0 :: rest, a ∈ J.Source.Inputs.map Ptr.addr)
      ∧ (∀ I ∈ B.Source.Inputs, ∃ J ∈ J0 :: rest, I ∈ J.Source.Inputs)
      ∧ B.Source.Inputs = firstOccurrences ((J0 :: rest).flatMap (fun J => J.Source.Inputs)) := by
  obtain ⟨r, B, hr, hB, _, _, _, _, _, hsrc, hC, hinv⟩ :=
    constructBatchJob_of_combinable constructInvocation J0 rest C hcomb
  have hins : B.Source.Inputs =
      firstOccurrences ((J0 :: rest).flatMap (fun J => J.Source.Inputs)) := by rw [hsrc]
  refine ⟨r, B, _, hr, hB, by rw [hsrc], ?_, hinv, rfl, ?_, ?_, ?_, hins⟩
  · rw [hC]
    rfl
  · rw [hins]
    exact nodup_addr_firstOccurrences _
  · intro a
    rw [hins, mem_addr_firstOccurrences, mem_addr_flatMap]
  · intro I hI
    rw [hins] at hI
    exact List.mem_flatMap.1 (mem_of_mem_firstOccurrences _ I hI)

/-- Witness for C20 (amended): the compile job of `a.swift` has the header
`x.h` as a further input, and the compile job of `b.swift` has the same
pointer to `x.h` and a second action with the same fields at address 7. The
set lists `x.h` once for the shared pointer and keeps the action at address
7. -/
theorem constructBatchJob_inputActions_witness :
    ∃ (r : ConstructBatchJobResult) (B : BatchJob),
      ToolChain.constructBatchJob sampleInvocation
          [sampleJob (sampleCompile [swiftInput "a.swift", otherInput "x.h"]) [] [],
           sampleJob (sampleCompile [swiftInput "b.swift", otherInput "x.h",
             ⟨7, (otherInput "x.h").obj⟩]) [] []]
          sampleCompilation = .ok r
      ∧ r.Result = some B
      ∧ B.Source.Inputs =
          [swiftInput "a.swift", otherInput "x.h", swiftInput "b.swift",
            ⟨7, (otherInput "x.h").obj⟩] := by
  obtain ⟨r, B, _, hr, hB, _, _, _, _, _, _, _, hins⟩ :=
    constructBatchJob_inputActions sampleInvocation
      (sampleJob (sampleCompile [swiftInput "a.swift", otherInput "x.h"]) [] [])
      [sampleJob (sampleCompile [swiftInput "b.swift", otherInput "x.h",
        ⟨7, (otherInput "x.h").obj⟩]) [] []]
      sampleCompilation (by decide)
  refine ⟨r, B, hr, hB, ?_⟩
  rw [hins]
  decide

/-! ## The precondition of `constructBatchJob` -/

/-- C21: `constructBatchJob` checks its precondition over all ordered pairs of
the list, a job with itself included: when the list has jobs `A` and `B`
(possibly the same job) for which `jobsAreBatchCombinable(A, B)` is false, the
call fails with the assertion and returns no batch job; so a single-job list
whose job is not batchable is rejected. -/
theorem constructBatchJob_rejects
    (constructInvocation : JobAction → JobContext → InvocationInfo) (C : Compilation) :
    (∀ (jobs : List Job) (A B : Job), A ∈ jobs → B ∈ jobs →
        ToolChain.jobsAreBatchCombinable A B = false →
        ToolChain.constructBatchJob constructInvocation jobs C
          = .error InvariantViolation.JobsAreBatchCombinable)
    ∧ (∀ J : Job, ToolChain.jobIsBatchable J = false →
        ToolChain.constructBatchJob constructInvocation [J] C
          = .error InvariantViolation.JobsAreBatchCombinable) := by
  have hmain : ∀ (jobs : List Job) (A B : Job), A ∈ jobs → B ∈ jobs →
      ToolChain.jobsAreBatchCombinable A B = false →
      ToolChain.constructBatchJob constructInvocation jobs C
        = .error InvariantViolation.JobsAreBatchCombinable := by
    intro jobs A B hA hB hAB
    have hall : (List.all jobs fun A =>
        List.all jobs fun B => ToolChain.jobsAreBatchCombinable A B) = false := by
      rw [Bool.eq_false_iff]
      intro hall
      rw [List.all_eq_true] at hall
      have h1 := hall A hA
      rw [List.all_eq_true] at h1
      have h2 := h1 B hB
      rw [hAB] at h2
      exact Bool.false_ne_true h2
    unfold ToolChain.constructBatchJob
    rw [hall]
    rfl
  refine ⟨hmain, ?_⟩
  intro J hJ
  apply hmain [J] J J (List.mem_singleton_self J) (List.mem_singleton_self J)
  rw [Bool.eq_false_iff]
  intro hcomb
  have := ((jobsAreBatchCombinable_iff J J).1 hcomb).1
  rw [hJ] at this
  exact Bool.false_ne_true this

/-- Witness for C21: the compile job of `a.swift` together with a link job,
and the link job alone. -/
theorem constructBatchJob_rejects_witness :
    ToolChain.constructBatchJob sampleInvocation
        [sampleJob (sampleCompile [swiftInput "a.swift"]) [] [],
         sampleJob { Kind := JobActionKind.LinkJob, Inputs := [], Ty := types.ID.TY_Other 1 }
           [] []] sampleCompilation
      = .error InvariantViolation.JobsAreBatchCombinable
    ∧ ToolChain.constructBatchJob sampleInvocation
        [sampleJob { Kind := JobActionKind.LinkJob, Inputs := [], Ty := types.ID.TY_Other 1 }
           [] []] sampleCompilation
      = .error InvariantViolation.JobsAreBatchCombinable :=
  ⟨(constructBatchJob_rejects sampleInvocation sampleCompilation).1
      [sampleJob (sampleCompile [swiftInput "a.swift"]) [] [],
       sampleJob { Kind := JobActionKind.LinkJob, Inputs := [], Ty := types.ID.TY_Other 1 }
         [] []]
      (sampleJob (sampleCompile [swiftInput "a.swift"]) [] [])
      (sampleJob { Kind := JobActionKind.LinkJob, Inputs := [], Ty := types.ID.TY_Other 1 }
         [] [])
      (by decide) (by decide) (by decide),
   (constructBatchJob_rejects sampleInvocation sampleCompilation).2
      (sampleJob { Kind := JobActionKind.LinkJob, Inputs := [], Ty := types.ID.TY_Other 1 }
         [] [])
      (by decide)⟩

/-- C27: for a non-empty list in which every ordered pair of jobs, a job with
itself included, is combinable, the source of every job is a compile action, so
the loop that collects the inputs never takes its `return nullptr`, and
`constructBatchJob` returns a batch job. -/
theorem constructBatchJob_returns_job
    (constructInvocation : JobAction → JobContext → InvocationInfo)
    (J0 : Job) (rest : List Job) (C : Compilation)
    (hcomb : ∀ A ∈ J0 :: rest, ∀ B ∈ J0 :: rest, ToolChain.jobsAreBatchCombinable A B = true) :
    (∀ J ∈ J0 :: rest, J.Source.Kind = JobActionKind.CompileJob)
    ∧ (ToolChain.constructBatchJob.collect (J0 :: rest) ([], [])).isSome = true
    ∧ ∃ (r : ConstructBatchJobResult) (B : BatchJob),
        ToolChain.constructBatchJob constructInvocation (J0 :: rest) C = .ok r
        ∧ r.Result = some B := by
  have hkind : ∀ J ∈ J0 :: rest, J.Source.Kind = JobActionKind.CompileJob := by
    intro J hJ
    have := (jobsAreBatchCombinable_iff J J).1 (hcomb J hJ J hJ)
    exact ((jobIsBatchable_eq_true_iff J).1 this.1).1
  refine ⟨hkind, ?_, ?_⟩
  · rw [collect_of_compile (J0 :: rest) hkind [] []]
    rfl
  · obtain ⟨r, B, hr, hB, _⟩ :=
      constructBatchJob_of_combinable constructInvocation J0 rest C hcomb
    exact ⟨r, B, hr, hB⟩

/-- Witness for C27: the compile jobs of `a.swift` and `b.swift`. -/
theorem constructBatchJob_returns_job_witness :
    ∃ (r : ConstructBatchJobResult) (B : BatchJob),
      ToolChain.constructBatchJob sampleInvocation
          [sampleJob (sampleCompile [swiftInput "a.swift"]) [] [],
           sampleJob (sampleCompile [swiftInput "b.swift"]) [] []] sampleCompilation = .ok r
      ∧ r.Result = some B :=
  (constructBatchJob_returns_job sampleInvocation
    (sampleJob (sampleCompile [swiftInput "a.swift"]) [] [])
    [sampleJob (sampleCompile [swiftInput "b.swift"]) [] []] sampleCompilation
    (by decide)).2.2

/-! ## Injectivity of the escaper -/

theorem escapeChars_injective (s t : StringRef)
    (h : s.flatMap (fun c => if c = '"' ∨ c = '\\' ∨ c = '$' then ['\\', c] else [c])
       = t.flatMap (fun c => if c = '"' ∨ c = '\\' ∨ c = '$' then ['\\', c] else [c])) :
    s = t := by
  induction s generalizing t with
  | nil =>
    cases t with
    | nil => rfl
    | cons d t' =>
      exfalso
      rw [List.flatMap_nil, List.flatMap_cons] at h
      by_cases hd : d = '"' ∨ d = '\\' ∨ d = '$'
      · rw [if_pos hd] at h
        simp at h
      · rw [if_neg hd] at h
        simp at h
  | cons c s' ih =>
    cases t with
    | nil =>
      exfalso
      rw [List.flatMap_nil, List.flatMap_cons] at h
      by_cases hc : c = '"' ∨ c = '\\' ∨ c = '$'
      · rw [if_pos hc] at h
        simp at h
      · rw [if_neg hc] at h
        simp at h
    | cons d t' =>
      rw [List.flatMap_cons, List.flatMap_cons] at h
      by_cases hc : c = '"' ∨ c = '\\' ∨ c = '$'
      · by_cases hd : d = '"' ∨ d = '\\' ∨ d = '$'
        · rw [if_pos hc, if_pos hd] at h
          simp only [List.cons_append, List.nil_append, List.cons.injEq, true_and] at h
          rw [h.1, ih t' h.2]
        · rw [if_pos hc, if_neg hd] at h
          simp only [List.cons_append, List.nil_append, List.cons.injEq] at h
          exact absurd (Or.inr (Or.inl h.1.symm)) hd
      · by_cases hd : d = '"' ∨ d = '\\' ∨ d = '$'
        · rw [if_neg hc, if_pos hd] at h
          simp only [List.cons_append, List.nil_append, List.cons.injEq] at h
          exact absurd (Or.inr (Or.inl h.1)) hc
        · rw [if_neg hc, if_neg hd] at h
          simp only [List.cons_append, List.nil_append, List.cons.injEq] at h
          rw [h.1, ih t' h.2]

theorem specEscape_quote_mem (s : StringRef) :
    '"' ∈ specEscape s ↔ ¬ (s ≠ [] ∧ ∀ c ∈ s, c ≠ ' ' ∧ c ≠ '"' ∧ c ≠ '\\' ∧ c ≠ '$') := by
  unfold specEscape
  by_cases hs : s = []
  · simp [hs]
  · by_cases hv : ∀ c ∈ s, c ≠ ' ' ∧ c ≠ '"' ∧ c ≠ '\\' ∧ c ≠ '$'
    · rw [if_neg hs, if_pos hv]
      constructor
      · intro hmem
        exact absurd rfl (hv _ hmem).2.1
      · intro hcon
        exact absurd ⟨hs, hv⟩ hcon
    · rw [if_neg hs, if_neg hv]
      constructor
      · intro _ hcon
        exact hv hcon.2
      · intro _
        simp

theorem specEscape_injective (s t : StringRef) (h : specEscape s = specEscape t) : s = t := by
  have hq := specEscape_quote_mem s
  rw [h, specEscape_quote_mem t] at hq
  by_cases hvs : s ≠ [] ∧ ∀ c ∈ s, c ≠ ' ' ∧ c ≠ '"' ∧ c ≠ '\\' ∧ c ≠ '$'
  · have hvt : t ≠ [] ∧ ∀ c ∈ t, c ≠ ' ' ∧ c ≠ '"' ∧ c ≠ '\\' ∧ c ≠ '$' := by
      by_contra hcon
      exact (hq.1 hcon) hvs
    unfold specEscape at h
    rw [if_neg hvs.1, if_pos hvs.2, if_neg hvt.1, if_pos hvt.2] at h
    exact h
  · have hvt : ¬ (t ≠ [] ∧ ∀ c ∈ t, c ≠ ' ' ∧ c ≠ '"' ∧ c ≠ '\\' ∧ c ≠ '$') := hq.2 hvs
    have hquoted : ∀ u : StringRef, u ≠ [] →
        ¬ (u ≠ [] ∧ ∀ c ∈ u, c ≠ ' ' ∧ c ≠ '"' ∧ c ≠ '\\' ∧ c ≠ '$') →
        specEscape u = ['"'] ++ u.flatMap
          (fun c => if c = '"' ∨ c = '\\' ∨ c = '$' then ['\\', c] else [c]) ++ ['"'] := by
      intro u hu hnv
      unfold specEscape
      rw [if_neg hu, if_neg (fun hv => hnv ⟨hu, hv⟩)]
    have hne : ∀ u : StringRef, u ≠ [] →
        u.flatMap (fun c => if c = '"' ∨ c = '\\' ∨ c = '$' then ['\\', c] else [c]) ≠ [] := by
      intro u hu hnil
      exact hu (escapeChars_injective u [] (by rw [hnil]; rfl))
    by_cases hs : s = []
    · by_cases ht : t = []
      · rw [hs, ht]
      · exfalso
        rw [hquoted t ht hvt, hs] at h
        simp only [specEscape, if_true, List.singleton_append, List.cons_append,
          List.cons.injEq, true_and] at h
        have hlen := congrArg List.length h
        have hpos := List.length_pos.2 (hne t ht)
        simp only [List.length_append, List.length_cons, List.length_nil] at hlen
        omega
    · by_cases ht : t = []
      · exfalso
        rw [hquoted s hs hvs, ht] at h
        simp only [specEscape, if_true, List.singleton_append, List.cons_append,
          List.cons.injEq, true_and] at h
        have hlen := congrArg List.length h
        have hpos := List.length_pos.2 (hne s hs)
        simp only [List.length_append, List.length_cons, List.length_nil] at hlen
        omega
      · rw [hquoted s hs hvs, hquoted t ht hvt] at h
        have h1 := List.append_cancel_right h
        have h2 := List.append_cancel_left h1
        exact escapeChars_injective s t h2

/-- C29: the argument escaper is injective: when `escapeAndPrintString` emits
the same text for `s` and for `t` then `s = t`, whatever the stream already
holds. -/
theorem escapeAndPrintString_injective :
    (∀ (os : raw_ostream) (s t : StringRef),
        escapeAndPrintString os s = escapeAndPrintString os t → s = t)
    ∧ Function.Injective (escapeAndPrintString []) := by
  have hmain : ∀ (os : raw_ostream) (s t : StringRef),
      escapeAndPrintString os s = escapeAndPrintString os t → s = t := by
    intro os s t h
    rw [escapeAndPrintString_eq, escapeAndPrintString_eq] at h
    exact specEscape_injective s t (List.append_cancel_left h)
  exact ⟨hmain, fun s t h => hmain [] s t h⟩

/-- Witness for C29: the argument `a b` against itself, and against `a  b`
with two spaces, for which the texts emitted differ. -/
theorem escapeAndPrintString_injective_witness :
    (escapeAndPrintString [] "a b".toList = escapeAndPrintString [] "a b".toList
      ∧ "a b".toList = "a b".toList)
    ∧ escapeAndPrintString [] "a b".toList ≠ escapeAndPrintString [] "a  b".toList :=
  ⟨⟨rfl, escapeAndPrintString_injective.1 [] "a b".toList "a b".toList rfl⟩,
   fun h => absurd (escapeAndPrintString_injective.1 [] "a b".toList "a  b".toList h)
     (by decide)⟩

/-! ## Path resolution -/

theorem setValue_append_of_none (M : StringMap) (k v w : StringRef)
    (h : StringMap.lookup M k = none) :
    StringMap.setValue (M ++ [(k, v)]) k w = M ++ [(k, w)] := by
  induction M with
  | nil => simp [StringMap.setValue]
  | cons p rest ih =>
    obtain ⟨k', v'⟩ := p
    by_cases hk : k' = k
    · simp [StringMap.lookup, hk] at h
    · simp only [StringMap.lookup, hk, if_false] at h
      show StringMap.setValue ((k', v') :: (rest ++ [(k, v)])) k w = (k', v') :: (rest ++ [(k, w)])
      rw [StringMap.setValue, if_neg hk, ih h]

theorem lookup_append_of_none (M : StringMap) (k v : StringRef)
    (h : StringMap.lookup M k = none) :
    StringMap.lookup (M ++ [(k, v)]) k = some v := by
  induction M with
  | nil => simp [StringMap.lookup]
  | cons p rest ih =>
    obtain ⟨k', v'⟩ := p
    by_cases hk : k' = k
    · simp [StringMap.lookup, hk] at h
    · simp only [StringMap.lookup, hk, if_false] at h
      show StringMap.lookup ((k', v') :: (rest ++ [(k, v)])) k = some v
      rw [StringMap.lookup, if_neg hk, ih h]

/-- A name that is not in the cache is searched for once, and the result of
the search is returned and stored. -/
theorem findProgramRelativeToSwift_miss (TC : ToolChain) (n : StringRef)
    (h : StringMap.lookup TC.ProgramLookupCache n = none) :
    TC.findProgramRelativeToSwift n =
      { path := TC.findProgramRelativeToSwiftImpl n,
        TC := { TC with ProgramLookupCache :=
                  TC.ProgramLookupCache ++ [(n, TC.findProgramRelativeToSwiftImpl n)] },
        Searches := [n] } := by
  unfold ToolChain.findProgramRelativeToSwift StringMap.insert
  simp only [h, if_true, setValue_append_of_none _ _ _ _ h, lookup_append_of_none _ _ _ h,
    Option.getD_some]

/-- A name that is in the cache is not searched for: the cached path is
returned and the tool chain is left as it is. -/
theorem findProgramRelativeToSwift_hit (TC : ToolChain) (n v : StringRef)
    (h : StringMap.lookup TC.ProgramLookupCache n = some v) :
    TC.findProgramRelativeToSwift n = { path := v, TC := TC, Searches := [] } := by
  unfold ToolChain.findProgramRelativeToSwift StringMap.insert
  simp only [h, Bool.false_eq_true, if_false, Option.getD_some]

theorem lookup_of_cacheSound (TC : ToolChain) (n v : StringRef)
    (hs : TC.cacheSound = true) (h : StringMap.lookup TC.ProgramLookupCache n = some v) :
    v = TC.findProgramRelativeToSwiftImpl n := by
  unfold ToolChain.cacheSound at hs
  rw [List.all_eq_true] at hs
  have hmem : ∀ M : StringMap, StringMap.lookup M n = some v → (n, v) ∈ M := by
    intro M
    induction M with
    | nil => intro hM; simp [StringMap.lookup] at hM
    | cons p rest ih =>
      obtain ⟨k', v'⟩ := p
      intro hM
      by_cases hk : k' = n
      · simp only [StringMap.lookup, hk, if_true, Option.some.injEq] at hM
        rw [hk, hM]
        exact List.mem_cons_self _ _
      · simp only [StringMap.lookup, hk, if_false] at hM
        exact List.mem_cons_of_mem _ (ih hM)
  have := hs (n, v) (hmem _ h)
  simpa using this

/-- With a cache that holds results of the search only, the path returned by
`findProgramRelativeToSwift` is the result of the search, and the cache stays
so. -/
theorem findProgramRelativeToSwift_of_cacheSound (TC : ToolChain) (n : StringRef)
    (hs : TC.cacheSound = true) :
    (TC.findProgramRelativeToSwift n).path = TC.findProgramRelativeToSwiftImpl n
    ∧ (TC.findProgramRelativeToSwift n).TC.cacheSound = true := by
  cases h : StringMap.lookup TC.ProgramLookupCache n with
  | none =>
    rw [findProgramRelativeToSwift_miss TC n h]
    refine ⟨rfl, ?_⟩
    unfold ToolChain.cacheSound at hs ⊢
    rw [List.all_eq_true] at hs ⊢
    intro p hp
    simp only [List.mem_append, List.mem_singleton] at hp
    rcases hp with hp | hp
    · exact hs p hp
    · rw [hp]
      simp [ToolChain.findProgramRelativeToSwiftImpl]
  | some v =>
    rw [findProgramRelativeToSwift_hit TC n v h]
    exact ⟨lookup_of_cacheSound TC n v hs h, hs⟩

/-- C22: `constructJob` resolves the executable of the job in this order: when
the name `n` given by the invocation builder is the frontend tool name of the
driver, the program path of the driver, with no search made; otherwise the path
that `findProgramRelativeToSwift` returns for `n` when it is not empty, which
is the result of the search in the directory of the driver for a cache that
holds results of that search only; otherwise the path found by the search of
the process search path; otherwise `n` itself. -/
theorem constructJob_executable (TC : ToolChain)
    (constructInvocation : JobAction → JobContext → InvocationInfo)
    (JA : JobAction) (C : Compilation) (inputs : List (Ptr Job))
    (inputActions : List (Ptr Action)) (output : CommandOutput) (OI : OutputInfo) (n : StringRef)
    (hn : (constructInvocation JA
        { C := C, Inputs := inputs, InputActions := inputActions, Output := output,
          OI := OI }).ExecutableName = n) :
    (n = TC.SWIFT_EXECUTABLE_NAME →
        (TC.constructJob constructInvocation JA C inputs inputActions output OI).1.Executable
          = TC.SwiftProgramPath
        ∧ (TC.constructJob constructInvocation JA C inputs inputActions output OI).2 = TC)
    ∧ (n ≠ TC.SWIFT_EXECUTABLE_NAME →
        (TC.constructJob constructInvocation JA C inputs inputActions output OI).1.Executable
          = (if (TC.findProgramRelativeToSwift n).path ≠ [] then
              (TC.findProgramRelativeToSwift n).path
            else
              match TC.findProgramByName n [] with
              | some systemPath => systemPath
              | none => n))
    ∧ (n ≠ TC.SWIFT_EXECUTABLE_NAME → TC.cacheSound = true →
        (TC.constructJob constructInvocation JA C inputs inputActions output OI).1.Executable
          = (match TC.findProgramByName n [TC.parent_path TC.SwiftProgramPath] with
             | some relativePath =>
               if relativePath ≠ [] then relativePath
               else
                 match TC.findProgramByName n [] with
                 | some systemPath => systemPath
                 | none => n
             | none =>
               match TC.findProgramByName n [] with
               | some systemPath => systemPath
               | none => n)) := by
  have hgen : n ≠ TC.SWIFT_EXECUTABLE_NAME →
      (TC.constructJob constructInvocation JA C inputs inputActions output OI).1.Executable
        = (if (TC.findProgramRelativeToSwift n).path ≠ [] then
            (TC.findProgramRelativeToSwift n).path
          else
            match TC.findProgramByName n [] with
            | some systemPath => systemPath
            | none => n) := by
    intro hne
    unfold ToolChain.constructJob
    simp only [hn]
    rw [if_neg (fun e => hne e.symm)]
    simp only [Job.new]
    cases hp : (TC.findProgramRelativeToSwift n).path with
    | nil => simp
    | cons a rest => simp
  refine ⟨?_, hgen, ?_⟩
  · intro heq
    unfold ToolChain.constructJob
    simp only [hn]
    rw [if_pos heq.symm]
    exact ⟨rfl, rfl⟩
  · intro hne hs
    have himpl : TC.findProgramRelativeToSwiftImpl n =
        (TC.findProgramByName n [TC.parent_path TC.SwiftProgramPath]).getD [] := by
      simp only [ToolChain.findProgramRelativeToSwiftImpl]
      cases hf : TC.findProgramByName n [TC.parent_path TC.SwiftProgramPath] <;> rfl
    rw [hgen hne, (findProgramRelativeToSwift_of_cacheSound TC n hs).1, himpl]
    cases hrel : TC.findProgramByName n [TC.parent_path TC.SwiftProgramPath] with
    | none => simp
    | some relativePath => simp

/-- Witness for C22: with the sample tool chain `ld` resolves to the path found
next to the driver. -/
theorem constructJob_executable_witness :
    (sampleToolChain.constructJob (sampleInvocationOf "ld") (sampleCompile [])
        sampleCompilation [] [] sampleOutput ⟨OutputInfo.Mode.OtherMode 0⟩).1.Executable
      = "/usr/bin/ld".toList := by
  have h := (constructJob_executable sampleToolChain (sampleInvocationOf "ld")
    (sampleCompile []) sampleCompilation [] [] sampleOutput ⟨OutputInfo.Mode.OtherMode 0⟩
    "ld".toList rfl).2.2 (by decide) (by decide)
  rw [h]
  decide

/-- C23: two calls in a row of `findProgramRelativeToSwift` for the same name
make the underlying search at most once in total, and exactly once when the
name was not in the cache before. The second call makes no search, returns the
value of the first and leaves the tool chain as the first left it; this also
holds when the first search found nothing, the empty path being what is
stored. -/
theorem findProgramRelativeToSwift_twice (TC : ToolChain) (n : StringRef) :
    ((TC.findProgramRelativeToSwift n).TC.findProgramRelativeToSwift n).Searches = []
    ∧ ((TC.findProgramRelativeToSwift n).TC.findProgramRelativeToSwift n).path
        = (TC.findProgramRelativeToSwift n).path
    ∧ ((TC.findProgramRelativeToSwift n).TC.findProgramRelativeToSwift n).TC
        = (TC.findProgramRelativeToSwift n).TC
    ∧ ((TC.findProgramRelativeToSwift n).Searches
        ++ ((TC.findProgramRelativeToSwift n).TC.findProgramRelativeToSwift n).Searches).length
        ≤ 1
    ∧ (StringMap.lookup TC.ProgramLookupCache n = none →
        (TC.findProgramRelativeToSwift n).Searches = [n]
        ∧ (TC.findProgramRelativeToSwift n).path = TC.findProgramRelativeToSwiftImpl n)
    ∧ (StringMap.lookup TC.ProgramLookupCache n ≠ none →
        (TC.findProgramRelativeToSwift n).Searches = [])
    ∧ (StringMap.lookup TC.ProgramLookupCache n = none →
        TC.findProgramByName n [TC.parent_path TC.SwiftProgramPath] = none →
        (TC.findProgramRelativeToSwift n).path = []
        ∧ StringMap.lookup (TC.findProgramRelativeToSwift n).TC.ProgramLookupCache n = some []
        ∧ ((TC.findProgramRelativeToSwift n).TC.findProgramRelativeToSwift n).path = []) := by
  cases h : StringMap.lookup TC.ProgramLookupCache n with
  | none =>
    have h1 := findProgramRelativeToSwift_miss TC n h
    have hl : StringMap.lookup (TC.findProgramRelativeToSwift n).TC.ProgramLookupCache n
        = some (TC.findProgramRelativeToSwiftImpl n) := by
      rw [h1]
      exact lookup_append_of_none _ _ _ h
    have h2 := findProgramRelativeToSwift_hit _ n _ hl
    have hp1 : (TC.findProgramRelativeToSwift n).path = TC.findProgramRelativeToSwiftImpl n := by
      rw [h1]
    have hs1 : (TC.findProgramRelativeToSwift n).Searches = [n] := by rw [h1]
    have hlen : ((TC.findProgramRelativeToSwift n).Searches
        ++ ((TC.findProgramRelativeToSwift n).TC.findProgramRelativeToSwift n).Searches).length
        ≤ 1 := by
      rw [h2, hs1]
      simp
    refine ⟨by rw [h2], by rw [h2, hp1], by rw [h2], hlen,
      fun _ => ⟨hs1, hp1⟩, fun hcon => absurd rfl hcon, ?_⟩
    intro _ hnone
    have himpl : TC.findProgramRelativeToSwiftImpl n = [] := by
      simp only [ToolChain.findProgramRelativeToSwiftImpl, hnone]
    refine ⟨by rw [hp1, himpl], by rw [hl, himpl], by rw [h2, himpl]⟩
  | some v =>
    have h1 := findProgramRelativeToSwift_hit TC n v h
    have hl : StringMap.lookup (TC.findProgramRelativeToSwift n).TC.ProgramLookupCache n
        = some v := by
      rw [h1]
      exact h
    have h2 := findProgramRelativeToSwift_hit _ n _ hl
    have hs1 : (TC.findProgramRelativeToSwift n).Searches = [] := by rw [h1]
    have hlen : ((TC.findProgramRelativeToSwift n).Searches
        ++ ((TC.findProgramRelativeToSwift n).TC.findProgramRelativeToSwift n).Searches).length
        ≤ 1 := by
      rw [h2, hs1]
      simp
    refine ⟨by rw [h2], by rw [h2, h1], by rw [h2], hlen, ?_, fun _ => hs1, ?_⟩
    · intro hcon
      cases hcon
    · intro hcon
      cases hcon

/-- Witness for C23: the name `nope`, which no search finds, on the sample tool
chain with its empty cache. -/
theorem findProgramRelativeToSwift_twice_witness :
    (sampleToolChain.findProgramRelativeToSwift "nope".toList).Searches = ["nope".toList]
    ∧ (sampleToolChain.findProgramRelativeToSwift "nope".toList).path = []
    ∧ ((sampleToolChain.findProgramRelativeToSwift "nope".toList).TC.findProgramRelativeToSwift
        "nope".toList).path = [] :=
  ⟨((findProgramRelativeToSwift_twice sampleToolChain "nope".toList).2.2.2.2.1 rfl).1,
   ((findProgramRelativeToSwift_twice sampleToolChain "nope".toList).2.2.2.2.2.2 rfl rfl).1,
   ((findProgramRelativeToSwift_twice sampleToolChain "nope".toList).2.2.2.2.2.2 rfl rfl).2.2⟩

/-- C24: the job returned by `constructJob` has the condition `Always` and the
given action as its source, the arguments, extra environment and filelist
descriptors of the invocation builder as they are, the given upstream jobs as
its inputs and the given command output. -/
theorem constructJob_fields (TC : ToolChain)
    (constructInvocation : JobAction → JobContext → InvocationInfo)
    (JA : JobAction) (C : Compilation) (inputs : List (Ptr Job))
    (inputActions : List (Ptr Action)) (output : CommandOutput) (OI : OutputInfo) :
    (TC.constructJob constructInvocation JA C inputs inputActions output OI).1.Cond
        = Job.Condition.Always
    ∧ (TC.constructJob constructInvocation JA C inputs inputActions output OI).1.Source = JA
    ∧ (TC.constructJob constructInvocation JA C inputs inputActions output OI).1.Arguments
        = (constructInvocation JA
            { C := C, Inputs := inputs, InputActions := inputActions, Output := output,
              OI := OI }).Arguments
    ∧ (TC.constructJob constructInvocation JA C inputs inputActions output OI).1.ExtraEnvironment
        = (constructInvocation JA
            { C := C, Inputs := inputs, InputActions := inputActions, Output := output,
              OI := OI }).ExtraEnvironment
    ∧ (TC.constructJob constructInvocation JA C inputs inputActions output OI).1.FilelistFileInfos
        = (constructInvocation JA
            { C := C, Inputs := inputs, InputActions := inputActions, Output := output,
              OI := OI }).FilelistInfos
    ∧ (TC.constructJob constructInvocation JA C inputs inputActions output OI).1.Inputs = inputs
    ∧ (TC.constructJob constructInvocation JA C inputs inputActions output OI).1.Output
        = output := by
  unfold ToolChain.constructJob
  by_cases h : TC.SWIFT_EXECUTABLE_NAME = (constructInvocation JA
      { C := C, Inputs := inputs, InputActions := inputActions, Output := output,
        OI := OI }).ExecutableName
  · simp [h, Job.new]
  · simp [h, Job.new]

/-! ## The frame of a registration -/

theorem getOutputMapForInput_set_other (D : OutputFileMap) (i i' : StringRef)
    (M : TypeToPathMap) (h : i' ≠ i) :
    (D.setOutputMapForInput i M).getOutputMapForInput i' = D.getOutputMapForInput i' := by
  obtain ⟨l⟩ := D
  have hii : ¬ i = i' := fun e => h e.symm
  simp only [OutputFileMap.setOutputMapForInput, OutputFileMap.getOutputMapForInput]
  induction l with
  | nil =>
    simp only [OutputFileMap.setOutputMapForInput.go, OutputFileMap.getOutputMapForInput.go]
    rw [if_neg hii]
  | cons p rest ih =>
    obtain ⟨k, M'⟩ := p
    by_cases hk : k = i
    · have hk' : ¬ k = i' := fun e => h (e.symm.trans hk)
      simp only [OutputFileMap.setOutputMapForInput.go, OutputFileMap.getOutputMapForInput.go]
      rw [if_pos hk, if_neg hk']
      simp only [OutputFileMap.getOutputMapForInput.go]
      rw [if_neg hk']
    · simp only [OutputFileMap.setOutputMapForInput.go, OutputFileMap.getOutputMapForInput.go]
      rw [if_neg hk]
      simp only [OutputFileMap.getOutputMapForInput.go]
      by_cases hk' : k = i'
      · rw [if_pos hk', if_pos hk']
      · rw [if_neg hk', if_neg hk']
        exact ih

theorem find_append_other (M : TypeToPathMap) (k k' : types.ID) (o : StringRef) (h : k' ≠ k) :
    TypeToPathMap.find (M ++ [(k, o)]) k' = TypeToPathMap.find M k' := by
  have hkk : ¬ k = k' := fun e => h e.symm
  induction M with
  | nil =>
    show TypeToPathMap.find [(k, o)] k' = TypeToPathMap.find [] k'
    simp only [TypeToPathMap.find, if_neg hkk]
  | cons p rest ih =>
    obtain ⟨k'', v⟩ := p
    show TypeToPathMap.find ((k'', v) :: (rest ++ [(k, o)])) k' = _
    by_cases hk : k'' = k'
    · rw [TypeToPathMap.find, if_pos hk, TypeToPathMap.find, if_pos hk]
    · rw [TypeToPathMap.find, if_neg hk, TypeToPathMap.find, if_neg hk, ih]

theorem find_insert_other (M : TypeToPathMap) (k k' : types.ID) (o : StringRef) (h : k' ≠ k) :
    TypeToPathMap.find (TypeToPathMap.insert M k o) k' = TypeToPathMap.find M k' := by
  unfold TypeToPathMap.insert
  cases hf : TypeToPathMap.find M k with
  | none => exact find_append_other M k k' o h
  | some v => rfl

theorem entry_set_other (D : OutputFileMap) (i i' : StringRef) (M : TypeToPathMap)
    (k' : types.ID) (h : i' ≠ i) :
    (D.setOutputMapForInput i M).entry i' k' = D.entry i' k' := by
  simp only [OutputFileMap.entry, getOutputMapForInput_set_other D i i' M h]

theorem checkConflictAndAdd_NDEBUG_fresh (c : CommandOutput) (o i : StringRef) (k : types.ID)
    (hM : c.DerivedOutputMap.getOutputMapForInput i = none) :
    (c.checkConflictAndAdd_NDEBUG o i k).DerivedOutputMap =
      OutputFileMap.setOutputMapForInput (c.DerivedOutputMap.setOutputMapForInput i []) i
        (TypeToPathMap.insert [] k o) := by
  unfold CommandOutput.checkConflictAndAdd_NDEBUG OutputFileMap.getOrCreateOutputMapForInput
  rw [hM]
  simp only [TypeToPathMap.find]

theorem checkConflictAndAdd_NDEBUG_add (c : CommandOutput) (o i : StringRef) (k : types.ID)
    (M : TypeToPathMap) (hM : c.DerivedOutputMap.getOutputMapForInput i = some M)
    (hf : TypeToPathMap.find M k = none) :
    (c.checkConflictAndAdd_NDEBUG o i k).DerivedOutputMap =
      c.DerivedOutputMap.setOutputMapForInput i (TypeToPathMap.insert M k o) := by
  unfold CommandOutput.checkConflictAndAdd_NDEBUG OutputFileMap.getOrCreateOutputMapForInput
  rw [hM]
  simp only [hf]

theorem checkConflictAndAdd_NDEBUG_keep (c : CommandOutput) (o i : StringRef) (k : types.ID)
    (M : TypeToPathMap) (v : StringRef)
    (hM : c.DerivedOutputMap.getOutputMapForInput i = some M)
    (hf : TypeToPathMap.find M k = some v) :
    c.checkConflictAndAdd_NDEBUG o i k = c := by
  unfold CommandOutput.checkConflictAndAdd_NDEBUG OutputFileMap.getOrCreateOutputMapForInput
  rw [hM]
  simp only [hf]

theorem checkConflictAndAdd_NDEBUG_other (c : CommandOutput) (o i i' : StringRef)
    (k k' : types.ID) (h : (i', k') ≠ (i, k)) :
    (c.checkConflictAndAdd_NDEBUG o i k).DerivedOutputMap.entry i' k'
      = c.DerivedOutputMap.entry i' k' := by
  cases hM : c.DerivedOutputMap.getOutputMapForInput i with
  | none =>
    rw [checkConflictAndAdd_NDEBUG_fresh c o i k hM]
    by_cases hi : i' = i
    · have hk : k' ≠ k := fun e => h (by rw [hi, e])
      rw [hi, entry_set_same, find_insert_other _ _ _ _ hk]
      simp only [OutputFileMap.entry, hM, TypeToPathMap.find]
    · rw [entry_set_other _ _ _ _ _ hi, entry_set_other _ _ _ _ _ hi]
  | some M =>
    cases hf : TypeToPathMap.find M k with
    | none =>
      rw [checkConflictAndAdd_NDEBUG_add c o i k M hM hf]
      by_cases hi : i' = i
      · have hk : k' ≠ k := fun e => h (by rw [hi, e])
        rw [hi, entry_set_same, find_insert_other _ _ _ _ hk]
        simp only [OutputFileMap.entry, hM]
      · rw [entry_set_other _ _ _ _ _ hi]
    | some v => rw [checkConflictAndAdd_NDEBUG_keep c o i k M v hM hf]

theorem checkConflictAndAdd_eq_NDEBUG (c c' : CommandOutput) (o i : StringRef) (k : types.ID)
    (h : c.checkConflictAndAdd o i k = .ok c') :
    c' = c.checkConflictAndAdd_NDEBUG o i k := by
  unfold CommandOutput.checkConflictAndAdd at h
  unfold CommandOutput.checkConflictAndAdd_NDEBUG
  generalize c.DerivedOutputMap.getOrCreateOutputMapForInput i = DM at h ⊢
  obtain ⟨D, M⟩ := DM
  simp only at h ⊢
  cases hf : TypeToPathMap.find M k with
  | none =>
    rw [hf] at h
    simp only at h ⊢
    injection h with h
    exact h.symm
  | some v =>
    rw [hf] at h
    simp only at h ⊢
    by_cases hv : v = o
    · rw [if_pos hv] at h
      injection h with h
      exact h.symm
    · rw [if_neg hv] at h
      cases h

/-- C28: the shared output table is first-writer-wins and a registration touches
one key only. For every state, input `i`, kind `k` and output `o`: when an entry
exists for `(i, k)`, `checkConflictAndAdd(o, i, k)` leaves the whole state as it
is, whether or not the entry is `o` (with assertions it then succeeds for an
entry equal to `o` and fails otherwise); when no entry exists it stores `o` for
`(i, k)`; and the entry of every other (input, kind) pair is unchanged. What
the call with assertions returns is the state of the call without them. -/
theorem checkConflictAndAdd_frame (c : CommandOutput) (o i : StringRef) (k : types.ID) :
    (∀ o', c.DerivedOutputMap.entry i k = some o' →
        c.checkConflictAndAdd_NDEBUG o i k = c
        ∧ c.checkConflictAndAdd o i k =
            (if o' = o then .ok c else .error InvariantViolation.OutSecondEqOutputFile))
    ∧ (c.DerivedOutputMap.entry i k = none →
        (c.checkConflictAndAdd_NDEBUG o i k).DerivedOutputMap.entry i k = some o
        ∧ c.checkConflictAndAdd o i k = .ok (c.checkConflictAndAdd_NDEBUG o i k))
    ∧ (∀ (i' : StringRef) (k' : types.ID), (i', k') ≠ (i, k) →
        (c.checkConflictAndAdd_NDEBUG o i k).DerivedOutputMap.entry i' k'
          = c.DerivedOutputMap.entry i' k')
    ∧ (∀ c', c.checkConflictAndAdd o i k = .ok c' →
        c' = c.checkConflictAndAdd_NDEBUG o i k
        ∧ c'.InputFiles = c.InputFiles ∧ c'.PrimaryOutputType = c.PrimaryOutputType) := by
  refine ⟨?_, ?_, ?_, ?_⟩
  · intro o' he
    refine ⟨?_, checkConflictAndAdd_of_entry_some c o i o' k he⟩
    unfold OutputFileMap.entry at he
    cases hM : c.DerivedOutputMap.getOutputMapForInput i with
    | none => rw [hM] at he; simp at he
    | some M =>
      rw [hM] at he
      simp only at he
      exact checkConflictAndAdd_NDEBUG_keep c o i k M o' hM he
  · intro he
    obtain ⟨D, hD, hDe⟩ := checkConflictAndAdd_of_entry_none c o i k he
    have := checkConflictAndAdd_eq_NDEBUG c _ o i k hD
    rw [← this]
    exact ⟨hDe, hD⟩
  · intro i' k' hne
    exact checkConflictAndAdd_NDEBUG_other c o i i' k k' hne
  · intro c' hc'
    have h := checkConflictAndAdd_ok c c' o i k hc'
    exact ⟨checkConflictAndAdd_eq_NDEBUG c c' o i k hc', h.2.1, h.2.2⟩

/-- Witness for C28: the table holds `a.o` for `a.swift`; registering `b.o` for
the same pair changes nothing, and registering `a.d` under another kind leaves
the entry `a.o` as it is. -/
theorem checkConflictAndAdd_frame_witness :
    ({ sampleOutput with
        InputFiles := ["a.swift".toList],
        DerivedOutputMap := ⟨[("a.swift".toList, [(types.ID.TY_Other 0, "a.o".toList)])]⟩ }
      : CommandOutput).checkConflictAndAdd_NDEBUG "b.o".toList "a.swift".toList
        (types.ID.TY_Other 0)
      = { sampleOutput with
          InputFiles := ["a.swift".toList],
          DerivedOutputMap := ⟨[("a.swift".toList, [(types.ID.TY_Other 0, "a.o".toList)])]⟩ }
    ∧ (({ sampleOutput with
        InputFiles := ["a.swift".toList],
        DerivedOutputMap := ⟨[("a.swift".toList, [(types.ID.TY_Other 0, "a.o".toList)])]⟩ }
      : CommandOutput).checkConflictAndAdd_NDEBUG "a.d".toList "a.swift".toList
        (types.ID.TY_Other 7)).DerivedOutputMap.entry "a.swift".toList (types.ID.TY_Other 0)
      = some "a.o".toList :=
  ⟨((checkConflictAndAdd_frame
      ({ sampleOutput with
          InputFiles := ["a.swift".toList],
          DerivedOutputMap := ⟨[("a.swift".toList, [(types.ID.TY_Other 0, "a.o".toList)])]⟩ }
        : CommandOutput) "b.o".toList "a.swift".toList (types.ID.TY_Other 0)).1
      "a.o".toList (by decide)).1,
   ((checkConflictAndAdd_frame
      ({ sampleOutput with
          InputFiles := ["a.swift".toList],
          DerivedOutputMap := ⟨[("a.swift".toList, [(types.ID.TY_Other 0, "a.o".toList)])]⟩ }
        : CommandOutput) "a.d".toList "a.swift".toList (types.ID.TY_Other 7)).2.2.1
      "a.swift".toList (types.ID.TY_Other 0) (by decide)).trans (by decide)⟩

/-! ## The summary of a job -/

theorem interleave_putStr {α : Type} (f : α → StringRef) (xs : List α) (os : raw_ostream) :
    interleave xs (fun os x => os.putStr (f x)) (fun os => os.putChar ' ') os
      = os ++ List.intercalate [' '] (xs.map f) := by
  unfold interleave
  cases xs with
  | nil => simp [List.intercalate]
  | cons a rest =>
    simp only [raw_ostream.putChar, raw_ostream.putStr, List.map_cons]
    rw [intercalate_cons_flatMap]
    have h := foldl_between_each f [' '] rest (os ++ f a)
    rw [h, List.flatMap_map]
    simp

theorem foldl_push (l acc : List StringRef) :
    l.foldl (fun Inputs f => Inputs ++ [f]) acc = acc ++ l := by
  induction l generalizing acc with
  | nil => simp
  | cons x xs ih =>
    rw [List.foldl_cons, ih]
    simp

theorem foldl_inputArgs (l : List (Ptr Action)) (acc : List StringRef) :
    l.foldl
        (fun Inputs A =>
          match A.obj with
          | .InputAction Input _ => Inputs ++ [Input]
          | .JobAction _ _ _ => Inputs)
        acc
      = acc ++ l.filterMap
          (fun A =>
            match A.obj with
            | .InputAction Input _ => some Input
            | .JobAction _ _ _ => none) := by
  induction l generalizing acc with
  | nil => simp
  | cons A rest ih =>
    rw [List.foldl_cons, ih]
    obtain ⟨addr, A⟩ := A
    cases A with
    | InputAction Input Ty => simp [List.filterMap_cons]
    | JobAction K Ins Ty => simp [List.filterMap_cons]

theorem foldl_jobOutputs (l : List (Ptr Job)) (acc : List StringRef) :
    l.foldl
        (fun Inputs J' =>
          J'.obj.Output.getPrimaryOutputFilenames.foldl (fun Inputs f => Inputs ++ [f]) Inputs)
        acc
      = acc ++ l.flatMap (fun J' => J'.obj.Output.getPrimaryOutputFilenames) := by
  induction l generalizing acc with
  | nil => simp
  | cons J' rest ih =>
    rw [List.foldl_cons, ih, foldl_push, List.flatMap_cons]
    simp

theorem collectInputs_eq (J : Job) :
    Job.printSummary.collectInputs J = J.specSummaryInputs := by
  unfold Job.printSummary.collectInputs Job.specSummaryInputs
  simp only [foldl_inputArgs, foldl_jobOutputs, List.nil_append]

/-- The text of `printSummary`, piece by piece. -/
theorem printSummary_eq (getClassName : JobActionKind → StringRef)
    (filename : StringRef → StringRef) (J : Job) (os : raw_ostream) :
    Job.printSummary getClassName filename J os =
      os ++ ['\x7b'] ++ getClassName J.Source.Kind ++ [':', ' ']
        ++ List.intercalate [' '] (J.Output.getPrimaryOutputFilenames.map filename)
        ++ [' ', '<', '=', ' ']
        ++ List.intercalate [' '] ((J.specSummaryInputs.take 3).map filename)
        ++ (if 3 < J.specSummaryInputs.length then
              [' ', '.', '.', '.', ' '] ++ Nat.toDigits 10 (J.specSummaryInputs.length - 3)
                ++ [' ', 'm', 'o', 'r', 'e']
            else [])
        ++ ['\x7d'] := by
  unfold Job.printSummary
  simp only [collectInputs_eq, interleave_putStr]
  simp only [raw_ostream.putStr]
  by_cases hlen : 3 < J.specSummaryInputs.length
  · simp only [gt_iff_lt, hlen, if_true]
    simp only [List.append_assoc]
  · have htake : J.specSummaryInputs.take 3 = J.specSummaryInputs :=
      List.take_of_length_le (by omega)
    simp only [gt_iff_lt, hlen, if_false, htake]
    simp only [List.append_assoc, List.append_nil]

/-- C25: when the combined input list of a job (the source-file arguments of
the leaf input actions among the inputs of its action, followed by the primary
output filenames of its upstream jobs) has `n > 3` entries, `printSummary`
renders the basenames of the first 3 entries followed by ` ... ` , `n - 3` and
` more`; for `n ≤ 3` it renders the basenames of all `n` entries and no such
suffix. The job with 5 inputs and 2 outputs renders 3 input basenames and
`... 2 more`. -/
theorem printSummary_limit (getClassName : JobActionKind → StringRef)
    (filename : StringRef → StringRef) (J : Job) (os : raw_ostream) :
    (3 < J.specSummaryInputs.length →
      Job.printSummary getClassName filename J os =
        os ++ ['\x7b'] ++ getClassName J.Source.Kind ++ [':', ' ']
          ++ List.intercalate [' '] (J.Output.getPrimaryOutputFilenames.map filename)
          ++ [' ', '<', '=', ' ']
          ++ List.intercalate [' '] ((J.specSummaryInputs.take 3).map filename)
          ++ [' ', '.', '.', '.', ' '] ++ Nat.toDigits 10 (J.specSummaryInputs.length - 3)
          ++ [' ', 'm', 'o', 'r', 'e']
          ++ ['\x7d']
      ∧ (J.specSummaryInputs.take 3).length = 3)
    ∧ (J.specSummaryInputs.length ≤ 3 →
      Job.printSummary getClassName filename J os =
        os ++ ['\x7b'] ++ getClassName J.Source.Kind ++ [':', ' ']
          ++ List.intercalate [' '] (J.Output.getPrimaryOutputFilenames.map filename)
          ++ [' ', '<', '=', ' ']
          ++ List.intercalate [' '] (J.specSummaryInputs.map filename)
          ++ ['\x7d'])
    ∧ Job.printSummary sampleClassName sampleFilename sampleSummaryJob []
        = "\x7bcompile: a.o b.o <= a.swift b.swift c.h ... 2 more\x7d".toList := by
  refine ⟨?_, ?_, by decide⟩
  · intro hlen
    rw [printSummary_eq, if_pos hlen]
    refine ⟨by simp only [List.append_assoc], ?_⟩
    rw [List.length_take]
    omega
  · intro hlen
    have htake : J.specSummaryInputs.take 3 = J.specSummaryInputs :=
      List.take_of_length_le hlen
    rw [printSummary_eq, if_neg (by omega), htake]
    simp only [List.append_nil]

/-- Witness for C25: the sample job with 5 inputs and 2 outputs. -/
theorem printSummary_limit_witness :
    Job.printSummary sampleClassName sampleFilename sampleSummaryJob []
      = "\x7bcompile: a.o b.o <= a.swift b.swift c.h ... 2 more\x7d".toList := by
  have h := ((printSummary_limit sampleClassName sampleFilename sampleSummaryJob []).1
    (by decide)).1
  rw [h]
  decide

/-- C26: for every job `printSummary` writes an opening brace, the name of the
kind of the action, a colon and a space, the basenames of the primary output
filenames of the job joined by single spaces, ` <= `, the basenames of the
shown inputs (the first 3 at most) joined by single spaces, ` ... N more` when
there are more than 3 inputs, and a closing brace; the input list is the
source-file arguments of the leaf input actions among the inputs of the action,
in order, followed by the primary output filenames of each upstream job, in
order. -/
theorem printSummary_spec (getClassName : JobActionKind → StringRef)
    (filename : StringRef → StringRef) (J : Job) (os : raw_ostream) :
    Job.printSummary getClassName filename J os =
        os ++ ['\x7b'] ++ getClassName J.Source.Kind ++ [':', ' ']
          ++ List.intercalate [' '] (J.Output.getPrimaryOutputFilenames.map filename)
          ++ [' ', '<', '=', ' ']
          ++ List.intercalate [' '] ((J.specSummaryInputs.take 3).map filename)
          ++ (if 3 < J.specSummaryInputs.length then
                [' ', '.', '.', '.', ' '] ++ Nat.toDigits 10 (J.specSummaryInputs.length - 3)
                  ++ [' ', 'm', 'o', 'r', 'e']
              else [])
          ++ ['\x7d']
    ∧ Job.printSummary.collectInputs J =
        J.Source.Inputs.filterMap
            (fun A =>
              match A.obj with
              | .InputAction Input _ => some Input
              | .JobAction _ _ _ => none)
          ++ J.Inputs.flatMap (fun J' => J'.obj.Output.getPrimaryOutputFilenames) :=
  ⟨printSummary_eq getClassName filename J os, collectInputs_eq J⟩

end driver
end swift
